import Mathlib

/-!
Verification of the Knowledge Graph Ingestion and Deduplication Engine of the
knowledge-explorer repository (src/kg/load_to_neo4j.py and
src/kg/load_external_to_neo4j.py).

The two loaders drive a Neo4j store through parameterized Cypher queries.  We
embed the store as a property graph: a list of labelled nodes carrying a
property map, and a list of edges referencing nodes by their (stable) position
in the node list.  Nodes are never deleted, so positions are stable
identifiers, exactly like Neo4j internal ids within one run.  The Cypher
MERGE-on-key / ON CREATE SET / ON MATCH SET pattern used by every query in the
two files is modelled by mergeNode and mergeEdge below.  Timestamps are
abstract ticks (Nat) supplied by the caller; JSON float payloads never
computed on (p values, confidence scores) are carried as opaque values.
JSON null and an absent key are conflated into Option.none; the two loaders
treat them identically in every place the claims touch (dict.get defaults and
Python truthiness are modelled explicitly where they differ, e.g. the empty
string being falsy).
-/

namespace KnowledgeExplorer

/-- A Neo4j property value: null, text, integer (also used for abstract
timestamp ticks and counters), or a list of strings. -/
inductive Val where
  | vnull : Val
  | vstr : String → Val
  | vint : Int → Val
  | vlist : List String → Val
deriving DecidableEq

/-- A node or relationship property map, ordered, first binding wins. -/
abbrev Props := List (String × Val)

/-- Property lookup; a missing property reads as null, as in Neo4j. -/
def getProp : Props → String → Val
  | [], _ => Val.vnull
  | (k', v) :: rest, k => if k' = k then v else getProp rest k

/-- Set a property, replacing an existing binding of the same key. -/
def setProp : Props → String → Val → Props
  | [], k, v => [(k, v)]
  | (k', v') :: rest, k, v =>
      if k' = k then (k, v) :: rest else (k', v') :: setProp rest k v

theorem getProp_setProp_self (ps : Props) (k : String) (v : Val) :
    getProp (setProp ps k v) k = v := by
  induction ps with
  | nil => simp [setProp, getProp]
  | cons hd tl ih =>
      obtain ⟨k', v'⟩ := hd
      by_cases h : k' = k
      · simp [setProp, h, getProp]
      · simp [setProp, h, getProp, ih]

theorem getProp_setProp_ne (ps : Props) (k k' : String) (v : Val)
    (h : k' ≠ k) : getProp (setProp ps k v) k' = getProp ps k' := by
  have h' : k ≠ k' := Ne.symm h
  induction ps with
  | nil => simp [setProp, getProp, h']
  | cons hd tl ih =>
      obtain ⟨k0, v0⟩ := hd
      by_cases hk : k0 = k
      · subst hk
        simp [setProp, getProp, h']
      · by_cases hk' : k0 = k'
        · simp [setProp, hk, getProp, hk', h]
        · simp [setProp, hk, getProp, hk', ih]

theorem getProp_cons_self (k : String) (v : Val) (ps : Props) :
    getProp ((k, v) :: ps) k = v := by simp [getProp]

theorem getProp_cons_ne (k k' : String) (v : Val) (ps : Props) (h : k ≠ k') :
    getProp ((k, v) :: ps) k' = getProp ps k' := by simp [getProp, h]

/-- A graph node: a Neo4j label and a property map. -/
structure GNode where
  label : String
  props : Props
deriving DecidableEq

/-- A graph relationship: type, endpoint positions, and creation properties. -/
structure GEdge where
  etype : String
  src : Nat
  tgt : Nat
  props : Props
deriving DecidableEq

/-- The graph store state. -/
structure Graph where
  nodes : List GNode
  edges : List GEdge
deriving DecidableEq

def emptyGraph : Graph := ⟨[], []⟩

/-- Does node n satisfy the pattern (n:lbl \x7bkey: v\x7d)?  A null parameter
matches nothing, as in Cypher. -/
def nodeMatchB (n : GNode) (lbl key : String) (v : Val) : Bool :=
  decide (v ≠ Val.vnull ∧ n.label = lbl ∧ getProp n.props key = v)

/-- Position of the first node matching (lbl \x7bkey: v\x7d). -/
def findNodeL (lbl key : String) (v : Val) : List GNode → Option Nat
  | [] => none
  | n :: ns =>
      if nodeMatchB n lbl key v then some 0
      else (findNodeL lbl key v ns).map (· + 1)

def findNode (g : Graph) (lbl key : String) (v : Val) : Option Nat :=
  findNodeL lbl key v g.nodes

theorem findNodeL_lt {lbl key : String} {v : Val} :
    ∀ {ns : List GNode} {i : Nat}, findNodeL lbl key v ns = some i →
      i < ns.length := by
  intro ns
  induction ns with
  | nil => intro i h; simp [findNodeL] at h
  | cons n ns ih =>
      intro i h
      by_cases hm : nodeMatchB n lbl key v
      · simp [findNodeL, hm] at h
        simp [List.length_cons]
        omega
      · simp [findNodeL, hm, Option.map_eq_some'] at h
        obtain ⟨j, hj, rfl⟩ := h
        have := ih hj
        simp [List.length_cons]
        omega

theorem findNodeL_append {lbl key : String} {v : Val} :
    ∀ {ns : List GNode} (ms : List GNode) {i : Nat},
      findNodeL lbl key v ns = some i → findNodeL lbl key v (ns ++ ms) = some i := by
  intro ns
  induction ns with
  | nil => intro ms i h; simp [findNodeL] at h
  | cons n ns ih =>
      intro ms i h
      by_cases hm : nodeMatchB n lbl key v
      · simp [findNodeL, hm] at h ⊢; exact h
      · simp [findNodeL, hm, Option.map_eq_some'] at h ⊢
        obtain ⟨j, hj, rfl⟩ := h
        exact ⟨j, ih ms hj, rfl⟩

theorem findNodeL_none_append {lbl key : String} {v : Val} :
    ∀ {ns : List GNode} (n : GNode), findNodeL lbl key v ns = none →
      findNodeL lbl key v (ns ++ [n]) =
        if nodeMatchB n lbl key v then some ns.length else none := by
  intro ns
  induction ns with
  | nil =>
      intro n _
      by_cases hm : nodeMatchB n lbl key v <;> simp [findNodeL, hm]
  | cons hd tl ih =>
      intro n h
      by_cases hm : nodeMatchB hd lbl key v
      · simp [findNodeL, hm] at h
      · have htl : findNodeL lbl key v tl = none := by
          simpa [findNodeL, hm, Option.map_eq_none'] using h
        have hstep := ih n htl
        by_cases hn : nodeMatchB n lbl key v <;>
          simp [findNodeL, hm, hn, hstep, List.length_cons]

/-- findNodeL only looks at the match status of each node. -/
theorem findNodeL_congr {lbl key : String} {v : Val} :
    ∀ {ns ms : List GNode},
      List.Forall₂ (fun n m => nodeMatchB m lbl key v = nodeMatchB n lbl key v) ns ms →
      findNodeL lbl key v ms = findNodeL lbl key v ns := by
  intro ns ms h
  induction h with
  | nil => rfl
  | @cons a b l1 l2 hab _ ih =>
      by_cases hm : nodeMatchB a lbl key v
      · simp [findNodeL, hm, hab]
      · simp [findNodeL, hm, hab, ih]

/-! ## Graph evolution order

Every write the two loaders issue either appends a node, appends an edge, or
touches an existing node by setting last_seen and possibly source_count.  The
Extends preorder captures exactly that; identity keys (obo_id, pmcid, uuid,
source_url, id, dataset_id, grant_id) are distinct from the two touched
properties, so node lookups by identity key are stable along Extends. -/

/-- The new node differs from the old one at most in last_seen and
source_count, and keeps its label. -/
def NodeSim (n n' : GNode) : Prop :=
  n'.label = n.label ∧
  ∀ k, k ≠ "last_seen" → k ≠ "source_count" → getProp n'.props k = getProp n.props k

theorem nodeSim_refl (n : GNode) : NodeSim n n := ⟨rfl, fun _ _ _ => rfl⟩

theorem nodeSim_trans {a b c : GNode} (h1 : NodeSim a b) (h2 : NodeSim b c) :
    NodeSim a c :=
  ⟨h2.1.trans h1.1, fun k h h' => (h2.2 k h h').trans (h1.2 k h h')⟩

/-- g' is reachable from g by loader writes: existing nodes evolve by NodeSim,
new nodes are appended after them, and edges are only appended. -/
def Extends (g g' : Graph) : Prop :=
  (∃ ns' rest, g'.nodes = ns' ++ rest ∧ List.Forall₂ NodeSim g.nodes ns') ∧
  ∃ es, g'.edges = g.edges ++ es

theorem Extends.refl (g : Graph) : Extends g g :=
  ⟨⟨g.nodes, [], by simp, List.forall₂_same.2 fun n _ => nodeSim_refl n⟩,
   [], by simp⟩

theorem forall₂_nodeSim_trans :
    ∀ {xs ys zs : List GNode}, List.Forall₂ NodeSim xs ys →
      List.Forall₂ NodeSim ys zs → List.Forall₂ NodeSim xs zs := by
  intro xs ys zs h1
  induction h1 generalizing zs with
  | nil => intro h2; cases h2; exact List.Forall₂.nil
  | cons hab _ ih =>
      intro h2
      cases h2 with
      | cons hbc htail => exact List.Forall₂.cons (nodeSim_trans hab hbc) (ih htail)

theorem forall₂_nodeSim_append_split :
    ∀ {xs ys zs : List GNode}, List.Forall₂ NodeSim (xs ++ ys) zs →
      ∃ l1 l2, zs = l1 ++ l2 ∧ List.Forall₂ NodeSim xs l1 ∧
        List.Forall₂ NodeSim ys l2 := by
  intro xs
  induction xs with
  | nil => intro ys zs h; exact ⟨[], zs, by simp, List.Forall₂.nil, by simpa using h⟩
  | cons a as ih =>
      intro ys zs h
      cases h with
      | cons hab htail =>
          obtain ⟨l1, l2, rfl, ha, hb⟩ := ih htail
          exact ⟨_ :: l1, l2, by simp, List.Forall₂.cons hab ha, hb⟩

theorem Extends.trans {g1 g2 g3 : Graph} (h12 : Extends g1 g2)
    (h23 : Extends g2 g3) : Extends g1 g3 := by
  obtain ⟨⟨ns2, rest2, hn2, hf2⟩, es2, he2⟩ := h12
  obtain ⟨⟨ns3, rest3, hn3, hf3⟩, es3, he3⟩ := h23
  constructor
  · have hf3' : List.Forall₂ NodeSim (ns2 ++ rest2) ns3 := hn2 ▸ hf3
    obtain ⟨l1, l2, rfl, ha, _⟩ := forall₂_nodeSim_append_split hf3'
    exact ⟨l1, l2 ++ rest3, by simp [hn3], forall₂_nodeSim_trans hf2 ha⟩
  · exact ⟨es2 ++ es3, by simp [he3, he2]⟩

theorem nodeMatchB_of_sim {n n' : GNode} (h : NodeSim n n') {lbl key : String}
    {v : Val} (hk1 : key ≠ "last_seen") (hk2 : key ≠ "source_count") :
    nodeMatchB n' lbl key v = nodeMatchB n lbl key v := by
  simp only [nodeMatchB, h.1, h.2 key hk1 hk2]

/-- Identity-key lookups are stable along Extends: the same node position
answers the same keyed pattern. -/
theorem findNode_stable {g g' : Graph} (h : Extends g g') {lbl key : String}
    {v : Val} {i : Nat} (hk1 : key ≠ "last_seen") (hk2 : key ≠ "source_count")
    (hf : findNode g lbl key v = some i) : findNode g' lbl key v = some i := by
  obtain ⟨⟨ns', rest, hn, hsim⟩, _⟩ := h
  have hcongr : findNodeL lbl key v ns' = findNodeL lbl key v g.nodes :=
    findNodeL_congr (hsim.imp fun _ _ hnm => nodeMatchB_of_sim hnm hk1 hk2)
  have : findNodeL lbl key v ns' = some i := hcongr.trans hf
  unfold findNode
  rw [hn]
  exact findNodeL_append rest this

theorem nodeExists_stable {g g' : Graph} (h : Extends g g') {lbl key : String}
    {v : Val} (hk1 : key ≠ "last_seen") (hk2 : key ≠ "source_count")
    (hf : (findNode g lbl key v).isSome) : (findNode g' lbl key v).isSome := by
  obtain ⟨i, hi⟩ := Option.isSome_iff_exists.1 hf
  exact Option.isSome_iff_exists.2 ⟨i, findNode_stable h hk1 hk2 hi⟩

/-- Apply a property update to the node at position i. -/
def modifyNode : List GNode → Nat → (Props → Props) → List GNode
  | [], _, _ => []
  | n :: ns, 0, f => ⟨n.label, f n.props⟩ :: ns
  | n :: ns, i + 1, f => n :: modifyNode ns i f

theorem length_modifyNode (f : Props → Props) :
    ∀ (ns : List GNode) (i : Nat), (modifyNode ns i f).length = ns.length := by
  intro ns
  induction ns with
  | nil => intro i; rfl
  | cons n ns ih =>
      intro i
      cases i with
      | zero => simp [modifyNode]
      | succ j => simp [modifyNode, ih]

/-- An ON MATCH clause that touches only last_seen / source_count. -/
def TouchOK (f : Props → Props) : Prop :=
  ∀ ps k, k ≠ "last_seen" → k ≠ "source_count" → getProp (f ps) k = getProp ps k

theorem touchOK_id : TouchOK (fun ps => ps) := fun _ _ _ _ => rfl

theorem forall₂_modifyNode {f : Props → Props} (hf : TouchOK f) :
    ∀ (ns : List GNode) (i : Nat), List.Forall₂ NodeSim ns (modifyNode ns i f) := by
  intro ns
  induction ns with
  | nil => intro i; exact List.Forall₂.nil
  | cons n ns ih =>
      intro i
      cases i with
      | zero =>
          exact List.Forall₂.cons ⟨rfl, fun k h1 h2 => hf n.props k h1 h2⟩
            (List.forall₂_same.2 fun m _ => nodeSim_refl m)
      | succ j => exact List.Forall₂.cons (nodeSim_refl n) (ih j)

theorem getProp_modifyNode_label {f : Props → Props} :
    ∀ (ns : List GNode) (i : Nat) (n : GNode), ns[i]? = some n →
      (modifyNode ns i f)[i]? = some (⟨n.label, f n.props⟩ : GNode) := by
  intro ns
  induction ns with
  | nil => intro i n h; simp at h
  | cons hd tl ih =>
      intro i n h
      cases i with
      | zero => simp at h; simp [modifyNode, h]
      | succ j =>
          simp at h
          simpa [modifyNode] using ih j n h

/-! ## MERGE semantics

mergeNode models `MERGE (n:LBL \x7bkey: v\x7d) ON CREATE SET ... ON MATCH SET ...`:
find the node by key, apply the ON MATCH update when found, otherwise append a
fresh node whose properties are the merge key binding followed by the
ON CREATE bindings.  It returns the node position and a created flag. -/

def mergeNode (g : Graph) (lbl key : String) (v : Val) (createProps : Props)
    (touch : Props → Props) : Graph × Nat × Bool :=
  match findNode g lbl key v with
  | some i => ({ g with nodes := modifyNode g.nodes i touch }, i, false)
  | none => ({ g with nodes := g.nodes ++ [⟨lbl, (key, v) :: createProps⟩] },
             g.nodes.length, true)

theorem mergeNode_extends {g : Graph} {lbl key : String} {v : Val}
    {createProps : Props} {touch : Props → Props} (hf : TouchOK touch) :
    Extends g (mergeNode g lbl key v createProps touch).1 := by
  unfold mergeNode
  cases h : findNode g lbl key v with
  | some i =>
      refine ⟨⟨modifyNode g.nodes i touch, [], by simp, forall₂_modifyNode hf _ _⟩,
        [], by simp⟩
  | none =>
      refine ⟨⟨g.nodes, [⟨lbl, (key, v) :: createProps⟩], by simp,
        List.forall₂_same.2 fun n _ => nodeSim_refl n⟩, [], by simp⟩

theorem mergeNode_found {g : Graph} {lbl key : String} {v : Val}
    {createProps : Props} {touch : Props → Props} {i : Nat}
    (h : findNode g lbl key v = some i) :
    mergeNode g lbl key v createProps touch =
      ({ g with nodes := modifyNode g.nodes i touch }, i, false) := by
  unfold mergeNode; rw [h]

theorem mergeNode_notfound {g : Graph} {lbl key : String} {v : Val}
    {createProps : Props} {touch : Props → Props}
    (h : findNode g lbl key v = none) :
    mergeNode g lbl key v createProps touch =
      ({ g with nodes := g.nodes ++ [⟨lbl, (key, v) :: createProps⟩] },
       g.nodes.length, true) := by
  unfold mergeNode; rw [h]

/-- After a merge the key pattern resolves to the returned position. -/
theorem mergeNode_findNode {g : Graph} {lbl key : String} {v : Val}
    {createProps : Props} {touch : Props → Props} (hv : v ≠ Val.vnull)
    (hk1 : key ≠ "last_seen") (hk2 : key ≠ "source_count") (hf : TouchOK touch) :
    findNode (mergeNode g lbl key v createProps touch).1 lbl key v =
      some (mergeNode g lbl key v createProps touch).2.1 := by
  cases h : findNode g lbl key v with
  | some i =>
      have hext : Extends g ({ g with nodes := modifyNode g.nodes i touch } : Graph) :=
        ⟨⟨modifyNode g.nodes i touch, [], by simp, forall₂_modifyNode hf _ _⟩,
         [], by simp⟩
      rw [mergeNode_found h]
      exact findNode_stable hext hk1 hk2 h
  | none =>
      rw [mergeNode_notfound h]
      unfold findNode at h ⊢
      simp only
      rw [findNodeL_none_append _ h]
      have hm : nodeMatchB ⟨lbl, (key, v) :: createProps⟩ lbl key v = true := by
        simp [nodeMatchB, getProp_cons_self, hv]
      simp [hm]

theorem mergeNode_nodes_length_found {g : Graph} {lbl key : String} {v : Val}
    {createProps : Props} {touch : Props → Props} {i : Nat}
    (h : findNode g lbl key v = some i) :
    (mergeNode g lbl key v createProps touch).1.nodes.length = g.nodes.length := by
  rw [mergeNode_found h]
  simp [length_modifyNode]

theorem mergeNode_edges {g : Graph} {lbl key : String} {v : Val}
    {createProps : Props} {touch : Props → Props} :
    (mergeNode g lbl key v createProps touch).1.edges = g.edges := by
  unfold mergeNode
  cases h : findNode g lbl key v <;> simp

/-- Does an edge of the given type already run between positions i and j? -/
def edgeExistsB (g : Graph) (rt : String) (i j : Nat) : Bool :=
  g.edges.any fun e => decide (e.etype = rt ∧ e.src = i ∧ e.tgt = j)

/-- `MERGE (a)-[r:RT]->(b) ON CREATE SET ...`: create the edge only if the
(type, source, target) triple is absent; never update an existing edge. -/
def mergeEdge (g : Graph) (rt : String) (i j : Nat) (createProps : Props) : Graph :=
  if edgeExistsB g rt i j then g
  else { g with edges := g.edges ++ [⟨rt, i, j, createProps⟩] }

theorem mergeEdge_extends (g : Graph) (rt : String) (i j : Nat)
    (createProps : Props) : Extends g (mergeEdge g rt i j createProps) := by
  unfold mergeEdge
  by_cases h : edgeExistsB g rt i j
  · simp [h]; exact Extends.refl g
  · simp [h]
    exact ⟨⟨g.nodes, [], by simp, List.forall₂_same.2 fun n _ => nodeSim_refl n⟩,
      [⟨rt, i, j, createProps⟩], by simp⟩

theorem mergeEdge_nodes (g : Graph) (rt : String) (i j : Nat)
    (createProps : Props) : (mergeEdge g rt i j createProps).nodes = g.nodes := by
  unfold mergeEdge
  by_cases h : edgeExistsB g rt i j <;> simp [h]

theorem mergeEdge_exists (g : Graph) {rt : String} {i j : Nat}
    (createProps : Props) (h : edgeExistsB g rt i j = true) :
    mergeEdge g rt i j createProps = g := by
  simp [mergeEdge, h]

theorem edgeExistsB_iff {g : Graph} {rt : String} {i j : Nat} :
    edgeExistsB g rt i j = true ↔
      ∃ e ∈ g.edges, e.etype = rt ∧ e.src = i ∧ e.tgt = j := by
  simp [edgeExistsB]

theorem mergeEdge_existsB_after (g : Graph) (rt : String) (i j : Nat)
    (createProps : Props) :
    edgeExistsB (mergeEdge g rt i j createProps) rt i j = true := by
  unfold mergeEdge
  by_cases h : edgeExistsB g rt i j
  · simp [h]
  · simp only [h, if_false]
    exact edgeExistsB_iff.2 ⟨⟨rt, i, j, createProps⟩, by simp, rfl, rfl, rfl⟩

theorem edgeExistsB_stable {g g' : Graph} (hext : Extends g g') {rt : String}
    {i j : Nat} (h : edgeExistsB g rt i j = true) : edgeExistsB g' rt i j = true := by
  obtain ⟨_, es, he⟩ := hext
  obtain ⟨e, hmem, hrest⟩ := edgeExistsB_iff.1 h
  exact edgeExistsB_iff.2 ⟨e, by rw [he]; exact List.mem_append_left _ hmem, hrest⟩

/-- Referential integrity: every edge endpoint is a valid node position. -/
def wf (g : Graph) : Prop :=
  ∀ e ∈ g.edges, e.src < g.nodes.length ∧ e.tgt < g.nodes.length

theorem wf_empty : wf emptyGraph := by
  intro e he
  simp [emptyGraph] at he

theorem wf_mergeNode {g : Graph} (hwf : wf g) (lbl key : String) (v : Val)
    (createProps : Props) (touch : Props → Props) :
    wf (mergeNode g lbl key v createProps touch).1 := by
  unfold mergeNode
  cases h : findNode g lbl key v with
  | some i =>
      intro e he
      have := hwf e he
      simpa [length_modifyNode] using this
  | none =>
      intro e he
      have := hwf e he
      simp only [List.length_append, List.length_cons, List.length_nil]
      omega

theorem wf_mergeEdge {g : Graph} (hwf : wf g) {rt : String} {i j : Nat}
    (hi : i < g.nodes.length) (hj : j < g.nodes.length) (createProps : Props) :
    wf (mergeEdge g rt i j createProps) := by
  unfold mergeEdge
  by_cases h : edgeExistsB g rt i j
  · simpa [h] using hwf
  · simp only [h, if_false]
    intro e he
    have he' : e ∈ g.edges ++ [⟨rt, i, j, createProps⟩] := he
    rcases List.mem_append.1 he' with hmem | hmem
    · exact hwf e hmem
    · have heq : e = ⟨rt, i, j, createProps⟩ := by simpa using hmem
      subst heq
      exact ⟨hi, hj⟩

theorem findNode_lt {g : Graph} {lbl key : String} {v : Val} {i : Nat}
    (h : findNode g lbl key v = some i) : i < g.nodes.length :=
  findNodeL_lt h

/-! ## Metrics

`self.metrics = defaultdict(int)`: a counter map from metric names to
naturals; absent keys read as zero. -/

abbrev Metrics := List (String × Nat)

def getM : Metrics → String → Nat
  | [], _ => 0
  | (k', n) :: rest, k => if k' = k then n else getM rest k

/-- `self.metrics[k] += 1` on a defaultdict(int). -/
def bump : Metrics → String → Metrics
  | [], k => [(k, 1)]
  | (k', n) :: rest, k =>
      if k' = k then (k', n + 1) :: rest else (k', n) :: bump rest k

/-- `self.metrics[k] = n`. -/
def setM : Metrics → String → Nat → Metrics
  | [], k, n => [(k, n)]
  | (k', n') :: rest, k, n =>
      if k' = k then (k', n) :: rest else (k', n') :: setM rest k n

theorem getM_bump_self (m : Metrics) (k : String) :
    getM (bump m k) k = getM m k + 1 := by
  induction m with
  | nil => simp [bump, getM]
  | cons hd tl ih =>
      obtain ⟨k', n⟩ := hd
      by_cases h : k' = k <;> simp [bump, h, getM, ih]

theorem getM_bump_ne (m : Metrics) (k k' : String) (h : k' ≠ k) :
    getM (bump m k) k' = getM m k' := by
  induction m with
  | nil => simp [bump, getM, Ne.symm h]
  | cons hd tl ih =>
      obtain ⟨k0, n⟩ := hd
      by_cases h0 : k0 = k
      · subst h0
        simp [bump, getM, Ne.symm h]
      · by_cases h1 : k0 = k' <;> simp [bump, h0, getM, h1, h, ih]

theorem getM_setM_self (m : Metrics) (k : String) (n : Nat) :
    getM (setM m k n) k = n := by
  induction m with
  | nil => simp [setM, getM]
  | cons hd tl ih =>
      obtain ⟨k', n'⟩ := hd
      by_cases h : k' = k <;> simp [setM, h, getM, ih]

theorem getM_setM_ne (m : Metrics) (k k' : String) (n : Nat) (h : k' ≠ k) :
    getM (setM m k n) k' = getM m k' := by
  induction m with
  | nil => simp [setM, getM, Ne.symm h]
  | cons hd tl ih =>
      obtain ⟨k0, n'⟩ := hd
      by_cases h0 : k0 = k
      · subst h0
        simp [setM, getM, Ne.symm h]
      · by_cases h1 : k0 = k' <;> simp [setM, h0, getM, h1, h, ih]

/-! ## Finding records (src/kg/load_to_neo4j.py input shape)

A Finding record mirrors exactly the JSON fields the loader reads.  Fields the
loader accesses through dict.get are Option-valued (none = absent or JSON
null); floats (p values, scores, magnitudes) are opaque Val payloads. -/

/-- An ontology-grounded term \x7bid, label, source_obo, synonyms\x7d. -/
structure OntologyTerm where
  id : Option String
  label : Option String
  source_obo : Option String
  synonyms : List String
deriving DecidableEq

/-- finding.magnitude: \x7bvalue, unit, method\x7d. -/
structure Magnitude where
  value : Val
  unit : Val
  method : Val
deriving DecidableEq

/-- finding.provenance; the source field named section is called sect here
because section is a Lean keyword. -/
structure Provenance where
  sect : Option String
  source_type : Val
deriving DecidableEq

/-- Optional paper metadata handed to ensure_paper_node (load_finding always
passes none for it). -/
structure PaperData where
  title : Val
  doi : Val
  year : Val
  journal : Val
  authors : List String
deriving DecidableEq

/-- A parsed finding record.  The phenotype/tissue/cell_type/organism wrapper
object and its ontology_term sub-key are collapsed into one Option: the
loader creates a node only when both are present, which corresponds to some.
evidence_score is evidence_strength.score with the 0.0 default already
applied, matching the two identical .get chains in the source. -/
structure Finding where
  uuid : Option String
  pmcid : Option String
  direction : Option String
  p_value : Val
  evidence_score : Val
  sample_size : Val
  timepoint : Val
  qualifiers : List String
  quotes : List String
  magnitude : Option Magnitude
  provenance : Option Provenance
  phenotype : Option OntologyTerm
  tissue : Option OntologyTerm
  cell_type : Option OntologyTerm
  organism : Option OntologyTerm
  organism_strain : Val
  organism_sex : Val
deriving DecidableEq

def oVal : Option String → Val
  | none => Val.vnull
  | some s => Val.vstr s

def tsVal (t : Nat) : Val := Val.vint (Int.ofNat t)

/-- ON MATCH SET n.last_seen = timestamp (Paper, Finding, external nodes). -/
def touchSeen (t : Nat) (ps : Props) : Props := setProp ps "last_seen" (tsVal t)

/-- COALESCE(n.source_count, 0) + 1. -/
def bumpCount : Val → Val
  | Val.vint n => Val.vint (n + 1)
  | _ => Val.vint 1

/-- ON MATCH SET n.last_seen = timestamp,
n.source_count = COALESCE(n.source_count, 0) + 1 (ontology nodes). -/
def touchCount (t : Nat) (ps : Props) : Props :=
  setProp (setProp ps "last_seen" (tsVal t)) "source_count"
    (bumpCount (getProp ps "source_count"))

theorem touchOK_touchSeen (t : Nat) : TouchOK (touchSeen t) := by
  intro ps k h1 _
  exact getProp_setProp_ne ps "last_seen" k (tsVal t) h1

theorem touchOK_touchCount (t : Nat) : TouchOK (touchCount t) := by
  intro ps k h1 h2
  unfold touchCount
  rw [getProp_setProp_ne _ _ _ _ h2, getProp_setProp_ne _ _ _ _ h1]

/-- ON CREATE property list of Neo4jLoader._ensure_ontology_node.  The
extra_props argument of the source function is accepted but has no effect:
the Cypher text only SETs the fixed property list, extra parameters are never
referenced by the query. -/
def ontCreateProps (od : OntologyTerm) (t : Nat) : Props :=
  [("label", oVal od.label),
   ("source_obo", oVal od.source_obo),
   ("synonyms", Val.vlist od.synonyms),
   ("first_seen", tsVal t),
   ("last_seen", tsVal t),
   ("source_count", Val.vint 1)]

/-- Neo4jLoader._ensure_ontology_node: MERGE on obo_id, dedup by ontology
identifier; raises (Neo4j null-property-merge error) when the term has no id.
Returns the graph, the metrics with the per-label node counter bumped, and
the obo_id the relationship step will use. -/
def ensure_ontology_node (g : Graph) (m : Metrics) (label : String)
    (od : OntologyTerm) (extraProps : Props) (t : Nat) :
    Except String (Graph × Metrics × Val) :=
  let _ := extraProps
  let oboId := oVal od.id
  if oboId = Val.vnull then Except.error "null merge key"
  else
    let r := mergeNode g label "obo_id" oboId (ontCreateProps od t) (touchCount t)
    Except.ok (r.1, bump m ("node_" ++ label), oboId)

/-- ON CREATE property list of Neo4jLoader._ensure_paper_node. -/
def paperCreateProps (pd : Option PaperData) (t : Nat) : Props :=
  match pd with
  | none =>
      [("title", Val.vnull), ("doi", Val.vnull), ("year", Val.vnull),
       ("journal", Val.vnull), ("authors", Val.vlist []),
       ("first_seen", tsVal t), ("last_seen", tsVal t)]
  | some p =>
      [("title", p.title), ("doi", p.doi), ("year", p.year),
       ("journal", p.journal), ("authors", Val.vlist p.authors),
       ("first_seen", tsVal t), ("last_seen", tsVal t)]

/-- Neo4jLoader._ensure_paper_node: MERGE Paper on pmcid; ON MATCH only
refreshes last_seen (no occurrence counter on Paper nodes). -/
def ensure_paper_node (g : Graph) (m : Metrics) (pmcid : Option String)
    (pd : Option PaperData) (t : Nat) : Except String (Graph × Metrics × Val) :=
  let pv := oVal pmcid
  if pv = Val.vnull then Except.error "null merge key"
  else
    let r := mergeNode g "Paper" "pmcid" pv (paperCreateProps pd t) (touchSeen t)
    Except.ok (r.1, bump m "node_Paper", pv)

/-- ON CREATE property list of Neo4jLoader._ensure_finding_node. -/
def findingCreateProps (f : Finding) (t : Nat) : Props :=
  [("pmcid", oVal f.pmcid),
   ("direction", oVal f.direction),
   ("p_value", f.p_value),
   ("evidence_strength", f.evidence_score),
   ("sample_size", f.sample_size),
   ("timepoint", f.timepoint),
   ("qualifiers", Val.vlist f.qualifiers),
   ("quotes", Val.vlist f.quotes),
   ("magnitude_value", match f.magnitude with | some mg => mg.value | none => Val.vnull),
   ("magnitude_unit", match f.magnitude with | some mg => mg.unit | none => Val.vnull),
   ("magnitude_method", match f.magnitude with | some mg => mg.method | none => Val.vnull),
   ("provenance_section", match f.provenance with | some pr => oVal pr.sect | none => Val.vnull),
   ("provenance_source_type", match f.provenance with | some pr => pr.source_type | none => Val.vnull),
   ("first_seen", tsVal t),
   ("last_seen", tsVal t)]

/-- Neo4jLoader._ensure_finding_node: the merge key is the record uuid, or a
fresh generated identifier when the record carries none
(finding.get(..., str(uuid.uuid4()))); ON MATCH only refreshes last_seen.
Cannot raise: the merge key is never null.  Returns the uuid used. -/
def ensure_finding_node (g : Graph) (m : Metrics) (f : Finding) (fresh : String)
    (t : Nat) : Graph × Metrics × String :=
  let fu := f.uuid.getD fresh
  let r := mergeNode g "Finding" "uuid" (Val.vstr fu) (findingCreateProps f t)
    (touchSeen t)
  (r.1, bump m "node_Finding", fu)

/-- Neo4jLoader._create_relationship: MATCH both endpoints by identity key,
MERGE the typed edge, ON CREATE SET the evidence properties plus created_at.
When either MATCH finds nothing the query is a row-less no-op; the per-type
metric rel_TYPE is incremented in every case (the source increments it after
tx.run regardless of what the query did). -/
def create_relationship (g : Graph) (m : Metrics) (from_label from_id_prop : String)
    (from_id : Val) (rel_type : String) (to_label to_id_prop : String)
    (to_id : Val) (props : Props) (t : Nat) : Graph × Metrics :=
  let relProps := setProp props "created_at" (tsVal t)
  let g' :=
    match findNode g from_label from_id_prop from_id,
          findNode g to_label to_id_prop to_id with
    | some i, some j => mergeEdge g rel_type i j relProps
    | _, _ => g
  (g', bump m ("rel_" ++ rel_type))

/-- Properties of the Paper-[:REPORTS]->Finding edge built in load_finding:
prov.get(section, empty) if prov else empty, and the evidence score. -/
def reportsProps (f : Finding) : Props :=
  [("provenance",
    Val.vstr (match f.provenance with
              | some pr => pr.sect.getD ""
              | none => "")),
   ("extraction_confidence", f.evidence_score)]

/-- Properties of the Finding-[:AFFECTS]->Phenotype edge built in
load_finding: direction, magnitude value (null when the record has no
magnitude), p_value. -/
def affectsProps (f : Finding) : Props :=
  [("direction", oVal f.direction),
   ("magnitude", match f.magnitude with | some mg => mg.value | none => Val.vnull),
   ("p_value", f.p_value)]

/-- One optional entity block of load_finding: when the wrapper and its
ontology_term are present, ensure the ontology node then create the
Finding-to-entity relationship. -/
def loadEntityStep (g : Graph) (m : Metrics) (fu : String) (label : String)
    (ot : Option OntologyTerm) (extraProps : Props) (rel_type : String)
    (relProps : Props) (t : Nat) : Except String Graph × Metrics :=
  match ot with
  | none => (Except.ok g, m)
  | some term =>
      match ensure_ontology_node g m label term extraProps t with
      | Except.error e => (Except.error e, m)
      | Except.ok (g1, m1, oid) =>
          let r := create_relationship g1 m1 "Finding" "uuid" (Val.vstr fu)
            rel_type label "obo_id" oid relProps t
          (Except.ok r.1, r.2)

/-- Neo4jLoader.load_finding: the full per-record mutation sequence, run
inside one transaction.  An error models a raised Neo4j exception; the caller
rolls the graph back (execute_write) but keeps the metric increments already
made, so the metrics component is returned in both outcomes. -/
def load_finding (g : Graph) (m : Metrics) (f : Finding) (fresh : String)
    (t : Nat) : Except String Graph × Metrics :=
  match ensure_paper_node g m f.pmcid none t with
  | Except.error e => (Except.error e, m)
  | Except.ok (g1, m1, pv) =>
      let r2 := ensure_finding_node g1 m1 f fresh t
      let g2 := r2.1
      let m2 := r2.2.1
      let fu := r2.2.2
      let r3 := create_relationship g2 m2 "Paper" "pmcid" pv "REPORTS"
        "Finding" "uuid" (Val.vstr fu) (reportsProps f) t
      let g3 := r3.1
      let m3 := r3.2
      match loadEntityStep g3 m3 fu "Phenotype" f.phenotype [] "AFFECTS"
        (affectsProps f) t with
      | (Except.error e, m4) => (Except.error e, m4)
      | (Except.ok g4, m4) =>
          match loadEntityStep g4 m4 fu "Tissue" f.tissue [] "OBSERVED_IN" [] t with
          | (Except.error e, m5) => (Except.error e, m5)
          | (Except.ok g5, m5) =>
              match loadEntityStep g5 m5 fu "CellType" f.cell_type []
                "OBSERVED_IN" [] t with
              | (Except.error e, m6) => (Except.error e, m6)
              | (Except.ok g6, m6) =>
                  loadEntityStep g6 m6 fu "Organism" f.organism
                    [("strain", f.organism_strain), ("sex", f.organism_sex)]
                    "IN_ORGANISM" [] t

/-- Loader run state: the store, the metrics dict, and the supply counter for
generated uuids (str(uuid.uuid4()) is modelled as an injective-by-assumption
external supply freshFn indexed by how many records were attempted). -/
structure RunSt where
  g : Graph
  m : Metrics
  c : Nat
deriving DecidableEq

/-- One record inside Neo4jLoader.load_findings_batch: execute_write applies
the whole mutation sequence atomically; on an exception the transaction rolls
back (graph unchanged) and the errors metric is bumped; the run continues. -/
def recordStep (freshFn : Nat → String) (t : Nat) (s : RunSt) (f : Finding) :
    RunSt :=
  match load_finding s.g s.m f (freshFn s.c) t with
  | (Except.ok g', m') => ⟨g', m', s.c + 1⟩
  | (Except.error _, m') => ⟨s.g, bump m' "errors", s.c + 1⟩

/-- Neo4jLoader.load_findings_batch: in dry-run mode the batch is skipped
entirely (only a log line); otherwise each finding is loaded in its own
transactional unit of work. -/
def load_findings_batch (dry_run : Bool) (freshFn : Nat → String) (t : Nat)
    (st : RunSt) (findings : List Finding) : RunSt :=
  if dry_run then st
  else findings.foldl (recordStep freshFn t) st

/-- One input line of the JSONL file: blank, malformed JSON, or a record. -/
inductive Line (α : Type) where
  | blank : Line α
  | malformed : Line α
  | record : α → Line α
deriving DecidableEq

/-- The records a line list parses to, in order. -/
def extractRecords {α : Type} : List (Line α) → List α
  | [] => []
  | Line.record f :: rest => f :: extractRecords rest
  | _ :: rest => extractRecords rest

/-- The parse-error count of a line list. -/
def countMalformed {α : Type} : List (Line α) → Nat
  | [] => 0
  | Line.malformed :: rest => countMalformed rest + 1
  | _ :: rest => countMalformed rest

/-- The reading loop of Neo4jLoader.load_from_jsonl: skip blank lines, count
malformed lines under parse_errors and continue, append parsed findings to
the pending batch and flush it whenever it reaches batch_size; finally flush
the trailing partial batch.  Returns the final state and the number of parsed
records handed to batches (the Python total_loaded accumulator, which counts
records regardless of per-record write errors). -/
def loadJsonlAux (dry_run : Bool) (freshFn : Nat → String) (batch_size t : Nat) :
    List (Line Finding) → RunSt → List Finding → Nat → RunSt × Nat
  | [], st, pending, total =>
      if pending.isEmpty then (st, total)
      else (load_findings_batch dry_run freshFn t st pending,
            total + pending.length)
  | Line.blank :: rest, st, pending, total =>
      loadJsonlAux dry_run freshFn batch_size t rest st pending total
  | Line.malformed :: rest, st, pending, total =>
      loadJsonlAux dry_run freshFn batch_size t rest
        ⟨st.g, bump st.m "parse_errors", st.c⟩ pending total
  | Line.record f :: rest, st, pending, total =>
      let pending' := pending ++ [f]
      if batch_size ≤ pending'.length then
        loadJsonlAux dry_run freshFn batch_size t rest
          (load_findings_batch dry_run freshFn t st pending') []
          (total + pending'.length)
      else
        loadJsonlAux dry_run freshFn batch_size t rest st pending' total

/-- Neo4jLoader.load_from_jsonl: run the reading loop from an empty pending
batch and finally record self.metrics[total_loaded] = total_loaded. -/
def load_from_jsonl (dry_run : Bool) (freshFn : Nat → String)
    (batch_size t : Nat) (lines : List (Line Finding)) (st : RunSt) : RunSt :=
  let r := loadJsonlAux dry_run freshFn batch_size t lines st [] 0
  ⟨r.1.g, setM r.1.m "total_loaded" r.2, r.1.c⟩

/-! ## External items (src/kg/load_external_to_neo4j.py) -/

/-- item.normalized_item.  itype is the source field named type (a Lean
keyword).  Option-valued fields are read through .get with a default. -/
structure NormalizedItem where
  itype : Option String
  source_url : Option String
  title : Option String
  summary : Option String
  published_at : Option String
  authors : List String
  tags : List String
  body_text : Option String
deriving DecidableEq

def NormalizedItem.empty : NormalizedItem :=
  ⟨none, none, none, none, none, [], [], none⟩

/-- item.referenced_ids: lists of referenced identifiers by category. -/
structure ReferencedIds where
  pmcid : List String
  osdr_id : List String
  taskbook_id : List String
deriving DecidableEq

/-- One grounded entity of item.grounded_entities. -/
structure GroundedEntity where
  entity_type : Option String
  id : Option String
  label : Option String
  source_obo : Option String
  confidence : Val
deriving DecidableEq

/-- An external item record. -/
structure ExternalItem where
  normalized_item : Option NormalizedItem
  grounded_entities : List GroundedEntity
  referenced_ids : Option ReferencedIds
deriving DecidableEq

/-- ExternalLoader.type_to_label with its NewsItem default. -/
def type_to_label : String → String
  | "news" => "NewsItem"
  | "explainer" => "Explainer"
  | "newsletter" => "NewsletterIssue"
  | "library_record" => "LibraryRecord"
  | _ => "NewsItem"

/-- Python slicing s[:n] over characters. -/
def pySlice (s : String) (n : Nat) : String := ⟨s.data.take n⟩

/-- The body_text parameter: body_text[:5000] if body_text else the empty
string (the empty string is falsy in Python). -/
def bodyTextStored (bt : Option String) : String :=
  let b := bt.getD ""
  if b = "" then "" else pySlice b 5000

/-- ON CREATE property list of ExternalLoader._ensure_external_node. -/
def extCreateProps (ni : NormalizedItem) (itemType : String) (t : Nat) : Props :=
  [("title", Val.vstr (ni.title.getD "")),
   ("summary", Val.vstr (ni.summary.getD "")),
   ("published_at", Val.vstr (ni.published_at.getD "")),
   ("authors", Val.vlist ni.authors),
   ("tags", Val.vlist ni.tags),
   ("body_text", Val.vstr (bodyTextStored ni.body_text)),
   ("source_type", Val.vstr itemType),
   ("first_seen", tsVal t),
   ("last_seen", tsVal t)]

/-- ExternalLoader._ensure_external_node: MERGE on source_url; ON MATCH only
refreshes last_seen.  Raises when the item has no source_url. -/
def ensure_external_node (g : Graph) (m : Metrics) (item : ExternalItem)
    (t : Nat) : Except String (Graph × Metrics × Val) :=
  let ni := item.normalized_item.getD NormalizedItem.empty
  let itemType := ni.itype.getD "news"
  let label := type_to_label itemType
  let url := oVal ni.source_url
  if url = Val.vnull then Except.error "null merge key"
  else
    let r := mergeNode g label "source_url" url (extCreateProps ni itemType t)
      (touchSeen t)
    Except.ok (r.1, bump m ("node_" ++ label), url)

/-- The label_map of ExternalLoader._ensure_biomedical_node. -/
def entityLabelMap : String → Option String
  | "organism" => some "Organism"
  | "tissue" => some "Tissue"
  | "cell_type" => some "CellType"
  | "phenotype" => some "Phenotype"
  | "exposure" => some "Exposure"
  | "platform" => some "Platform"
  | "mission" => some "Mission"
  | "assay" => some "Assay"
  | "duration" => some "Duration"
  | "chemical" => some "Chemical"
  | "pathway" => some "Pathway"
  | _ => none

/-- Python truthiness test `source_obo and source_obo != CUSTOM`: None and
the empty string are falsy. -/
def sourceOboGrounded : Option String → Bool
  | none => false
  | some s => decide (s ≠ "" ∧ s ≠ "CUSTOM")

/-- `source_obo or CUSTOM`. -/
def sourceOboOrCustom : Option String → String
  | none => "CUSTOM"
  | some s => if s = "" then "CUSTOM" else s

/-- ON CREATE property list of the grounded (obo_id-keyed) branch. -/
def bioCreatePropsObo (e : GroundedEntity) (t : Nat) : Props :=
  [("label", oVal e.label),
   ("source_obo", oVal e.source_obo),
   ("first_seen", tsVal t),
   ("last_seen", tsVal t),
   ("source_count", Val.vint 1)]

/-- ON CREATE property list of the custom (id-keyed) branch. -/
def bioCreatePropsId (e : GroundedEntity) (t : Nat) : Props :=
  [("label", oVal e.label),
   ("source_obo", Val.vstr (sourceOboOrCustom e.source_obo)),
   ("first_seen", tsVal t),
   ("last_seen", tsVal t),
   ("source_count", Val.vint 1)]

/-- ExternalLoader._ensure_biomedical_node: unknown entity types yield none
without touching anything; a grounded source_obo (truthy and not CUSTOM)
merges on obo_id, otherwise the merge key is the source-local id property.
Both branches count occurrences in source_count.  Raises when the chosen
merge key value is null. -/
def ensure_biomedical_node (g : Graph) (m : Metrics) (e : GroundedEntity)
    (t : Nat) : Except String (Graph × Metrics × Option Val) :=
  match e.entity_type with
  | none => Except.ok (g, m, none)
  | some et =>
      match entityLabelMap et with
      | none => Except.ok (g, m, none)
      | some label =>
          let keyVal := oVal e.id
          if sourceOboGrounded e.source_obo then
            if keyVal = Val.vnull then Except.error "null merge key"
            else
              let r := mergeNode g label "obo_id" keyVal (bioCreatePropsObo e t)
                (touchCount t)
              Except.ok (r.1, bump m ("node_" ++ label), some keyVal)
          else
            if keyVal = Val.vnull then Except.error "null merge key"
            else
              let r := mergeNode g label "id" keyVal (bioCreatePropsId e t)
                (touchCount t)
              Except.ok (r.1, bump m ("node_" ++ label), some keyVal)

/-- The label_map of ExternalLoader._create_mentions_edge: the target label
and the id property used to MATCH the target.  For the ontology-capable
types the property is obo_id unless source_obo equals exactly CUSTOM (note:
unlike the node branch, None and the empty string choose obo_id here); the
remaining types always match on id. -/
def mentionsLabelMap (e : GroundedEntity) : String → Option (String × String)
  | "organism" => some ("Organism", if e.source_obo = some "CUSTOM" then "id" else "obo_id")
  | "tissue" => some ("Tissue", if e.source_obo = some "CUSTOM" then "id" else "obo_id")
  | "cell_type" => some ("CellType", if e.source_obo = some "CUSTOM" then "id" else "obo_id")
  | "phenotype" => some ("Phenotype", if e.source_obo = some "CUSTOM" then "id" else "obo_id")
  | "exposure" => some ("Exposure", "id")
  | "platform" => some ("Platform", "id")
  | "mission" => some ("Mission", "id")
  | "assay" => some ("Assay", "id")
  | "duration" => some ("Duration", "id")
  | "chemical" => some ("Chemical", if e.source_obo = some "CUSTOM" then "id" else "obo_id")
  | "pathway" => some ("Pathway", if e.source_obo = some "CUSTOM" then "id" else "obo_id")
  | _ => none

/-- ExternalLoader._create_mentions_edge: MATCH the external node by
source_url and the target by the mapped id property; MERGE the MENTIONS edge
with its evidence properties set ON CREATE only.  The rel_MENTIONS metric is
bumped whenever the query ran (also when a MATCH found nothing). -/
def create_mentions_edge (g : Graph) (m : Metrics) (source_url : Val)
    (source_label : String) (e : GroundedEntity) (t : Nat) : Graph × Metrics :=
  match e.entity_type with
  | none => (g, m)
  | some et =>
      match mentionsLabelMap e et with
      | none => (g, m)
      | some (target_label, id_prop) =>
          let g' :=
            match findNode g source_label "source_url" source_url,
                  findNode g target_label id_prop (oVal e.id) with
            | some i, some j =>
                mergeEdge g "MENTIONS" i j
                  [("source_type", Val.vstr "external"),
                   ("extraction_confidence", e.confidence),
                   ("created_at", tsVal t)]
            | _, _ => g
          (g', bump m "rel_MENTIONS")

/-- One query of ExternalLoader._create_links_to_edges: MATCH the external
node, lazily MERGE the placeholder target (ON CREATE sets only the
timestamps, ON MATCH sets nothing), MERGE the LINKS_TO edge.  When the MATCH
finds no external node the whole query is a row-less no-op. -/
def linkToOne (g : Graph) (source_label : String) (source_url : Val)
    (target_label target_key : String) (pid : String) (t : Nat) : Graph :=
  match findNode g source_label "source_url" source_url with
  | none => g
  | some i =>
      let r := mergeNode g target_label target_key (Val.vstr pid)
        [("first_seen", tsVal t), ("last_seen", tsVal t)] (fun ps => ps)
      mergeEdge r.1 "LINKS_TO" i r.2.1 [("created_at", tsVal t)]

/-- ExternalLoader._create_links_to_edges over the three reference
categories; each category bumps its own metric per referenced id. -/
def create_links_to_edges (g : Graph) (m : Metrics) (source_url : Val)
    (source_label : String) (rids : ReferencedIds) (t : Nat) : Graph × Metrics :=
  let after_p := rids.pmcid.foldl
    (fun acc pid => (linkToOne acc.1 source_label source_url "Paper" "pmcid" pid t,
                     bump acc.2 "rel_LINKS_TO_Paper")) (g, m)
  let after_d := rids.osdr_id.foldl
    (fun acc pid => (linkToOne acc.1 source_label source_url "OSDR_Dataset" "dataset_id" pid t,
                     bump acc.2 "rel_LINKS_TO_OSDR")) after_p
  rids.taskbook_id.foldl
    (fun acc pid => (linkToOne acc.1 source_label source_url "TaskBook_Grant" "grant_id" pid t,
                     bump acc.2 "rel_LINKS_TO_TaskBook")) after_d

/-- The per-entity loop body of ExternalLoader.load_external_item: ensure the
biomedical node, then create the MENTIONS edge. -/
def loadEntities (url : Val) (label : String) (t : Nat) :
    Graph → Metrics → List GroundedEntity → Except String Graph × Metrics
  | g, m, [] => (Except.ok g, m)
  | g, m, e :: es =>
      match ensure_biomedical_node g m e t with
      | Except.error err => (Except.error err, m)
      | Except.ok (g1, m1, _) =>
          let r := create_mentions_edge g1 m1 url label e t
          loadEntities url label t r.1 r.2 es

/-- ExternalLoader.load_external_item: external node, then biomedical nodes
with their MENTIONS edges, then LINKS_TO edges (skipped when referenced_ids
is absent or the empty falsy dict). -/
def load_external_item (g : Graph) (m : Metrics) (item : ExternalItem)
    (t : Nat) : Except String Graph × Metrics :=
  let ni := item.normalized_item.getD NormalizedItem.empty
  let itemType := ni.itype.getD "news"
  let label := type_to_label itemType
  match ensure_external_node g m item t with
  | Except.error e => (Except.error e, m)
  | Except.ok (g1, m1, url) =>
      match loadEntities url label t g1 m1 item.grounded_entities with
      | (Except.error e, m2) => (Except.error e, m2)
      | (Except.ok g2, m2) =>
          match item.referenced_ids with
          | none => (Except.ok g2, m2)
          | some rids =>
              let r := create_links_to_edges g2 m2 url label rids t
              (Except.ok r.1, r.2)

/-- External loader run state (no generated-uuid supply is needed). -/
structure ExtSt where
  g : Graph
  m : Metrics
deriving DecidableEq

/-- One record of ExternalLoader.load_external_batch: per-record transaction;
an exception rolls the record back, bumps errors, and the run continues. -/
def extRecordStep (t : Nat) (s : ExtSt) (item : ExternalItem) : ExtSt :=
  match load_external_item s.g s.m item t with
  | (Except.ok g', m') => ⟨g', m'⟩
  | (Except.error _, m') => ⟨s.g, bump m' "errors"⟩

/-- ExternalLoader.load_external_batch: skipped entirely in dry-run mode. -/
def load_external_batch (dry_run : Bool) (t : Nat) (st : ExtSt)
    (items : List ExternalItem) : ExtSt :=
  if dry_run then st
  else items.foldl (extRecordStep t) st

/-- The reading loop of ExternalLoader.load_from_ndjson (same structure as
the findings loop). -/
def loadNdjsonAux (dry_run : Bool) (batch_size t : Nat) :
    List (Line ExternalItem) → ExtSt → List ExternalItem → Nat → ExtSt × Nat
  | [], st, pending, total =>
      if pending.isEmpty then (st, total)
      else (load_external_batch dry_run t st pending, total + pending.length)
  | Line.blank :: rest, st, pending, total =>
      loadNdjsonAux dry_run batch_size t rest st pending total
  | Line.malformed :: rest, st, pending, total =>
      loadNdjsonAux dry_run batch_size t rest
        ⟨st.g, bump st.m "parse_errors"⟩ pending total
  | Line.record it :: rest, st, pending, total =>
      let pending' := pending ++ [it]
      if batch_size ≤ pending'.length then
        loadNdjsonAux dry_run batch_size t rest
          (load_external_batch dry_run t st pending') []
          (total + pending'.length)
      else
        loadNdjsonAux dry_run batch_size t rest st pending' total

/-- ExternalLoader.load_from_ndjson. -/
def load_from_ndjson (dry_run : Bool) (batch_size t : Nat)
    (lines : List (Line ExternalItem)) (st : ExtSt) : ExtSt :=
  let r := loadNdjsonAux dry_run batch_size t lines st [] 0
  ⟨r.1.g, setM r.1.m "total_loaded" r.2⟩

/-! ## Helper lemmas for the per-operation claims -/

theorem modifyNode_id : ∀ (ns : List GNode) (i : Nat),
    modifyNode ns i (fun ps => ps) = ns := by
  intro ns
  induction ns with
  | nil => intro i; rfl
  | cons n tl ih =>
      intro i
      cases i with
      | zero => simp [modifyNode]
      | succ j => simp [modifyNode, ih]

theorem pySlice_length (s : String) (n : Nat) : (pySlice s n).length ≤ n := by
  have hmin : (pySlice s n).length = min n s.data.length := by
    show (s.data.take n).length = min n s.data.length
    exact List.length_take n s.data
  omega

theorem pySlice_of_short (s : String) (n : Nat) (h : s.length ≤ n) :
    pySlice s n = s := by
  unfold pySlice
  have hlen : s.data.length ≤ n := h
  rw [List.take_of_length_le hlen]

theorem bodyTextStored_eq (bt : Option String) :
    bodyTextStored bt = pySlice (bt.getD "") 5000 := by
  unfold bodyTextStored
  by_cases h : bt.getD "" = ""
  · rw [h]
    decide
  · simp [h]

theorem bodyTextStored_none : bodyTextStored none = "" := rfl

/-- No two edges of the graph share a (type, source, target) triple. -/
def edgesUnique (g : Graph) : Prop :=
  List.Pairwise
    (fun e1 e2 => ¬(e1.etype = e2.etype ∧ e1.src = e2.src ∧ e1.tgt = e2.tgt))
    g.edges

theorem edgesUnique_mergeEdge {g : Graph} (h : edgesUnique g) (rt : String)
    (i j : Nat) (ps : Props) : edgesUnique (mergeEdge g rt i j ps) := by
  unfold mergeEdge
  by_cases hex : edgeExistsB g rt i j
  · simpa [hex]
  · rw [if_neg hex]
    unfold edgesUnique at *
    show List.Pairwise _ (g.edges ++ [⟨rt, i, j, ps⟩])
    rw [List.pairwise_append]
    refine ⟨h, by simp, ?_⟩
    intro a ha b hb
    simp only [List.mem_singleton] at hb
    subst hb
    intro ⟨h1, h2, h3⟩
    exact hex (edgeExistsB_iff.2 ⟨a, ha, h1, h2, h3⟩)

theorem mem_edges_mergeEdge {g : Graph} {e : GEdge} (h : e ∈ g.edges)
    (rt : String) (i j : Nat) (ps : Props) : e ∈ (mergeEdge g rt i j ps).edges := by
  unfold mergeEdge
  by_cases hex : edgeExistsB g rt i j
  · simpa [hex]
  · simp only [hex, if_false]
    exact List.mem_append_left _ h

theorem create_relationship_graph_cases (g : Graph) (m : Metrics)
    (fl fp : String) (fv : Val) (rt : String) (tl tp : String) (tv : Val)
    (props : Props) (t : Nat) :
    (create_relationship g m fl fp fv rt tl tp tv props t).1 = g ∨
    ∃ i j, findNode g fl fp fv = some i ∧ findNode g tl tp tv = some j ∧
      (create_relationship g m fl fp fv rt tl tp tv props t).1 =
        mergeEdge g rt i j (setProp props "created_at" (tsVal t)) := by
  unfold create_relationship
  cases h1 : findNode g fl fp fv with
  | none => left; rfl
  | some i =>
      cases h2 : findNode g tl tp tv with
      | none => left; rfl
      | some j => right; exact ⟨i, j, rfl, rfl, rfl⟩

theorem create_relationship_extends (g : Graph) (m : Metrics)
    (fl fp : String) (fv : Val) (rt : String) (tl tp : String) (tv : Val)
    (props : Props) (t : Nat) :
    Extends g (create_relationship g m fl fp fv rt tl tp tv props t).1 := by
  rcases create_relationship_graph_cases g m fl fp fv rt tl tp tv props t with
    h | ⟨i, j, _, _, h⟩
  · rw [h]; exact Extends.refl g
  · rw [h]; exact mergeEdge_extends g rt i j _

theorem create_relationship_metrics (g : Graph) (m : Metrics)
    (fl fp : String) (fv : Val) (rt : String) (tl tp : String) (tv : Val)
    (props : Props) (t : Nat) :
    (create_relationship g m fl fp fv rt tl tp tv props t).2 =
      bump m ("rel_" ++ rt) := by
  unfold create_relationship
  cases findNode g fl fp fv <;> cases findNode g tl tp tv <;> rfl

theorem create_relationship_nodes (g : Graph) (m : Metrics)
    (fl fp : String) (fv : Val) (rt : String) (tl tp : String) (tv : Val)
    (props : Props) (t : Nat) :
    (create_relationship g m fl fp fv rt tl tp tv props t).1.nodes = g.nodes := by
  rcases create_relationship_graph_cases g m fl fp fv rt tl tp tv props t with
    h | ⟨i, j, _, _, h⟩
  · rw [h]
  · rw [h]; exact mergeEdge_nodes g rt i j _

/-- An edge keyed by endpoint identity patterns, as the loaders create it. -/
def edgeKeyed (g : Graph) (rt : String) (l1 k1 : String) (v1 : Val)
    (l2 k2 : String) (v2 : Val) : Prop :=
  ∃ i j, findNode g l1 k1 v1 = some i ∧ findNode g l2 k2 v2 = some j ∧
    edgeExistsB g rt i j = true

theorem edgeKeyed_stable {g g' : Graph} (hext : Extends g g') {rt : String}
    {l1 k1 : String} {v1 : Val} {l2 k2 : String} {v2 : Val}
    (hk1a : k1 ≠ "last_seen") (hk1b : k1 ≠ "source_count")
    (hk2a : k2 ≠ "last_seen") (hk2b : k2 ≠ "source_count")
    (h : edgeKeyed g rt l1 k1 v1 l2 k2 v2) : edgeKeyed g' rt l1 k1 v1 l2 k2 v2 := by
  obtain ⟨i, j, h1, h2, h3⟩ := h
  exact ⟨i, j, findNode_stable hext hk1a hk1b h1, findNode_stable hext hk2a hk2b h2,
    edgeExistsB_stable hext h3⟩

/-- When both endpoint patterns resolve and the keyed edge already exists,
create_relationship leaves the graph untouched. -/
theorem create_relationship_noop {g : Graph} (m : Metrics)
    {fl fp : String} {fv : Val} {rt : String} {tl tp : String} {tv : Val}
    (props : Props) (t : Nat) (h : edgeKeyed g rt fl fp fv tl tp tv) :
    (create_relationship g m fl fp fv rt tl tp tv props t).1 = g := by
  obtain ⟨i, j, h1, h2, h3⟩ := h
  unfold create_relationship
  rw [h1, h2]
  simp only
  exact mergeEdge_exists g _ h3

/-- After create_relationship with both endpoints resolved, the keyed edge
exists. -/
theorem create_relationship_keyed {g : Graph} (m : Metrics)
    {fl fp : String} {fv : Val} (rt : String) {tl tp : String} {tv : Val}
    (props : Props) (t : Nat) {i j : Nat}
    (hk1a : fp ≠ "last_seen") (hk1b : fp ≠ "source_count")
    (hk2a : tp ≠ "last_seen") (hk2b : tp ≠ "source_count")
    (h1 : findNode g fl fp fv = some i) (h2 : findNode g tl tp tv = some j) :
    edgeKeyed (create_relationship g m fl fp fv rt tl tp tv props t).1
      rt fl fp fv tl tp tv := by
  unfold create_relationship
  rw [h1, h2]
  simp only
  have hext : Extends g (mergeEdge g rt i j (setProp props "created_at" (tsVal t))) :=
    mergeEdge_extends g rt i j _
  exact ⟨i, j, findNode_stable hext hk1a hk1b h1, findNode_stable hext hk2a hk2b h2,
    mergeEdge_existsB_after g rt i j _⟩

/-! ## Equation lemmas for the ensure operations -/

theorem ensure_ontology_node_found {g : Graph} (m : Metrics) {lbl : String}
    {od : OntologyTerm} (ex : Props) (t : Nat) {x : String} {i : Nat}
    (hid : od.id = some x)
    (hf : findNode g lbl "obo_id" (Val.vstr x) = some i) :
    ensure_ontology_node g m lbl od ex t =
      Except.ok ({ g with nodes := modifyNode g.nodes i (touchCount t) },
        bump m ("node_" ++ lbl), Val.vstr x) := by
  unfold ensure_ontology_node
  rw [hid]
  simp only [oVal]
  rw [if_neg (by simp), mergeNode_found hf]

theorem ensure_ontology_node_create {g : Graph} (m : Metrics) {lbl : String}
    {od : OntologyTerm} (ex : Props) (t : Nat) {x : String}
    (hid : od.id = some x)
    (hf : findNode g lbl "obo_id" (Val.vstr x) = none) :
    ensure_ontology_node g m lbl od ex t =
      Except.ok ({ g with nodes :=
          g.nodes ++ [⟨lbl, ("obo_id", Val.vstr x) :: ontCreateProps od t⟩] },
        bump m ("node_" ++ lbl), Val.vstr x) := by
  unfold ensure_ontology_node
  rw [hid]
  simp only [oVal]
  rw [if_neg (by simp), mergeNode_notfound hf]

theorem ensure_ontology_node_err {g : Graph} (m : Metrics) {lbl : String}
    {od : OntologyTerm} (ex : Props) (t : Nat) (hid : od.id = none) :
    ensure_ontology_node g m lbl od ex t = Except.error "null merge key" := by
  unfold ensure_ontology_node
  rw [hid]
  simp [oVal]

theorem ensure_paper_node_found {g : Graph} (m : Metrics) {p : String}
    (pd : Option PaperData) (t : Nat) {i : Nat}
    (hf : findNode g "Paper" "pmcid" (Val.vstr p) = some i) :
    ensure_paper_node g m (some p) pd t =
      Except.ok ({ g with nodes := modifyNode g.nodes i (touchSeen t) },
        bump m "node_Paper", Val.vstr p) := by
  unfold ensure_paper_node
  simp only [oVal]
  rw [if_neg (by simp), mergeNode_found hf]

theorem ensure_paper_node_create {g : Graph} (m : Metrics) {p : String}
    (pd : Option PaperData) (t : Nat)
    (hf : findNode g "Paper" "pmcid" (Val.vstr p) = none) :
    ensure_paper_node g m (some p) pd t =
      Except.ok ({ g with nodes :=
          g.nodes ++ [⟨"Paper", ("pmcid", Val.vstr p) :: paperCreateProps pd t⟩] },
        bump m "node_Paper", Val.vstr p) := by
  unfold ensure_paper_node
  simp only [oVal]
  rw [if_neg (by simp), mergeNode_notfound hf]

theorem ensure_paper_node_err (g : Graph) (m : Metrics) (pd : Option PaperData)
    (t : Nat) : ensure_paper_node g m none pd t = Except.error "null merge key" := by
  unfold ensure_paper_node
  simp [oVal]

theorem ensure_finding_node_found {g : Graph} (m : Metrics) {f : Finding}
    (fresh : String) (t : Nat) {u : String} {i : Nat} (hu : f.uuid = some u)
    (hf : findNode g "Finding" "uuid" (Val.vstr u) = some i) :
    ensure_finding_node g m f fresh t =
      ({ g with nodes := modifyNode g.nodes i (touchSeen t) },
       bump m "node_Finding", u) := by
  unfold ensure_finding_node
  rw [hu]
  simp only [Option.getD_some]
  rw [mergeNode_found hf]

theorem ensure_finding_node_create {g : Graph} (m : Metrics) {f : Finding}
    (fresh : String) (t : Nat) {u : String} (hu : f.uuid.getD fresh = u)
    (hf : findNode g "Finding" "uuid" (Val.vstr u) = none) :
    ensure_finding_node g m f fresh t =
      ({ g with nodes :=
          g.nodes ++ [⟨"Finding", ("uuid", Val.vstr u) :: findingCreateProps f t⟩] },
       bump m "node_Finding", u) := by
  unfold ensure_finding_node
  rw [hu]
  simp only [mergeNode_notfound hf]

theorem ensure_external_node_found {g : Graph} (m : Metrics)
    {item : ExternalItem} (t : Nat) {ni : NormalizedItem} {u : String} {i : Nat}
    (hni : item.normalized_item = some ni) (hurl : ni.source_url = some u)
    (hf : findNode g (type_to_label (ni.itype.getD "news")) "source_url"
      (Val.vstr u) = some i) :
    ensure_external_node g m item t =
      Except.ok ({ g with nodes := modifyNode g.nodes i (touchSeen t) },
        bump m ("node_" ++ type_to_label (ni.itype.getD "news")), Val.vstr u) := by
  unfold ensure_external_node
  rw [hni]
  simp only [Option.getD_some]
  rw [hurl]
  simp only [oVal]
  rw [if_neg (by simp), mergeNode_found hf]

theorem ensure_external_node_create {g : Graph} (m : Metrics)
    {item : ExternalItem} (t : Nat) {ni : NormalizedItem} {u : String}
    (hni : item.normalized_item = some ni) (hurl : ni.source_url = some u)
    (hf : findNode g (type_to_label (ni.itype.getD "news")) "source_url"
      (Val.vstr u) = none) :
    ensure_external_node g m item t =
      Except.ok ({ g with nodes := g.nodes ++
          [⟨type_to_label (ni.itype.getD "news"),
            ("source_url", Val.vstr u) ::
              extCreateProps ni (ni.itype.getD "news") t⟩] },
        bump m ("node_" ++ type_to_label (ni.itype.getD "news")), Val.vstr u) := by
  unfold ensure_external_node
  rw [hni]
  simp only [Option.getD_some]
  rw [hurl]
  simp only [oVal]
  rw [if_neg (by simp), mergeNode_notfound hf]

theorem ensure_biomedical_node_grounded (g : Graph) (m : Metrics)
    {e : GroundedEntity} (t : Nat) {et lbl x : String}
    (het : e.entity_type = some et) (hlbl : entityLabelMap et = some lbl)
    (hid : e.id = some x) (hob : sourceOboGrounded e.source_obo = true) :
    ensure_biomedical_node g m e t =
      Except.ok ((mergeNode g lbl "obo_id" (Val.vstr x) (bioCreatePropsObo e t)
          (touchCount t)).1,
        bump m ("node_" ++ lbl), some (Val.vstr x)) := by
  unfold ensure_biomedical_node
  rw [het]
  simp only [hlbl, hid, oVal]
  rw [if_pos hob, if_neg (by simp)]

theorem ensure_biomedical_node_custom (g : Graph) (m : Metrics)
    {e : GroundedEntity} (t : Nat) {et lbl x : String}
    (het : e.entity_type = some et) (hlbl : entityLabelMap et = some lbl)
    (hid : e.id = some x) (hob : sourceOboGrounded e.source_obo = false) :
    ensure_biomedical_node g m e t =
      Except.ok ((mergeNode g lbl "id" (Val.vstr x) (bioCreatePropsId e t)
          (touchCount t)).1,
        bump m ("node_" ++ lbl), some (Val.vstr x)) := by
  unfold ensure_biomedical_node
  rw [het]
  simp only [hlbl, hid, oVal]
  rw [if_neg (by simp [hob]), if_neg (by simp)]

theorem mem_edges_extends {g g' : Graph} (hext : Extends g g') {e : GEdge}
    (h : e ∈ g.edges) : e ∈ g'.edges := by
  obtain ⟨_, es, he⟩ := hext
  rw [he]
  exact List.mem_append_left _ h

theorem create_mentions_edge_graph_cases (g : Graph) (m : Metrics) (url : Val)
    (slbl : String) (e : GroundedEntity) (t : Nat) :
    (create_mentions_edge g m url slbl e t).1 = g ∨
    ∃ i j tlbl idp, findNode g slbl "source_url" url = some i ∧
      findNode g tlbl idp (oVal e.id) = some j ∧
      (create_mentions_edge g m url slbl e t).1 =
        mergeEdge g "MENTIONS" i j
          [("source_type", Val.vstr "external"),
           ("extraction_confidence", e.confidence),
           ("created_at", tsVal t)] := by
  rcases het : e.entity_type with _ | et
  · left; simp only [create_mentions_edge, het]
  · rcases hmap : mentionsLabelMap e et with _ | ⟨tlbl, idp⟩
    · left; simp only [create_mentions_edge, het, hmap]
    · rcases h1 : findNode g slbl "source_url" url with _ | i
      · left; simp only [create_mentions_edge, het, hmap, h1]
      · rcases h2 : findNode g tlbl idp (oVal e.id) with _ | j
        · left; simp only [create_mentions_edge, het, hmap, h1, h2]
        · right
          exact ⟨i, j, tlbl, idp, rfl, h2,
            by simp only [create_mentions_edge, het, hmap, h1, h2]⟩

theorem create_mentions_edge_extends (g : Graph) (m : Metrics) (url : Val)
    (slbl : String) (e : GroundedEntity) (t : Nat) :
    Extends g (create_mentions_edge g m url slbl e t).1 := by
  rcases create_mentions_edge_graph_cases g m url slbl e t with
    h | ⟨i, j, _, _, _, _, h⟩
  · rw [h]; exact Extends.refl g
  · rw [h]; exact mergeEdge_extends g "MENTIONS" i j _

theorem create_mentions_edge_nodes (g : Graph) (m : Metrics) (url : Val)
    (slbl : String) (e : GroundedEntity) (t : Nat) :
    (create_mentions_edge g m url slbl e t).1.nodes = g.nodes := by
  rcases create_mentions_edge_graph_cases g m url slbl e t with
    h | ⟨i, j, _, _, _, _, h⟩
  · rw [h]
  · rw [h]; exact mergeEdge_nodes g "MENTIONS" i j _

theorem create_mentions_edge_no_target {g : Graph} (m : Metrics) {url : Val}
    (slbl : String) {e : GroundedEntity} (t : Nat) {et tlbl idp : String}
    (het : e.entity_type = some et)
    (hmap : mentionsLabelMap e et = some (tlbl, idp))
    (hnone : findNode g tlbl idp (oVal e.id) = none) :
    (create_mentions_edge g m url slbl e t).1 = g := by
  rcases h1 : findNode g slbl "source_url" url with _ | i <;>
    simp only [create_mentions_edge, het, hmap, h1, hnone]

theorem create_mentions_edge_metrics {g : Graph} (m : Metrics) {url : Val}
    (slbl : String) {e : GroundedEntity} (t : Nat) {et : String} {pr : String × String}
    (het : e.entity_type = some et) (hmap : mentionsLabelMap e et = some pr) :
    (create_mentions_edge g m url slbl e t).2 = bump m "rel_MENTIONS" := by
  obtain ⟨tlbl, idp⟩ := pr
  simp only [create_mentions_edge, het, hmap]

/-- Merging on one key never makes a previously failing lookup on a second
key succeed, provided the created node does not match that second lookup. -/
theorem findNode_none_mergeNode {g : Graph} {lbl key : String} {v : Val}
    {createProps : Props} {touch : Props → Props} (hf : TouchOK touch)
    {lbl2 key2 : String} {v2 : Val}
    (hk2a : key2 ≠ "last_seen") (hk2b : key2 ≠ "source_count")
    (hnew : nodeMatchB ⟨lbl, (key, v) :: createProps⟩ lbl2 key2 v2 = false)
    (h : findNode g lbl2 key2 v2 = none) :
    findNode (mergeNode g lbl key v createProps touch).1 lbl2 key2 v2 = none := by
  unfold mergeNode
  cases hm : findNode g lbl key v with
  | some i =>
      have hcongr :
          findNodeL lbl2 key2 v2 (modifyNode g.nodes i touch) =
            findNodeL lbl2 key2 v2 g.nodes :=
        findNodeL_congr ((forall₂_modifyNode hf g.nodes i).imp
          fun _ _ hnm => nodeMatchB_of_sim hnm hk2a hk2b)
      show findNodeL lbl2 key2 v2 (modifyNode g.nodes i touch) = none
      exact hcongr.trans h
  | none =>
      show findNodeL lbl2 key2 v2 (g.nodes ++ [⟨lbl, (key, v) :: createProps⟩]) = none
      rw [findNodeL_none_append _ h, hnew]
      simp

/-- After a successful ensure_ontology_node, the obo_id lookup succeeds. -/
theorem ensure_ontology_node_exists {g : Graph} {m : Metrics} {lbl : String}
    {od : OntologyTerm} {ex : Props} {t : Nat} {x : String}
    {g1 : Graph} {m1 : Metrics} {v : Val} (hid : od.id = some x)
    (hok : ensure_ontology_node g m lbl od ex t = Except.ok (g1, m1, v)) :
    (findNode g1 lbl "obo_id" (Val.vstr x)).isSome := by
  unfold ensure_ontology_node at hok
  rw [hid] at hok
  simp only [oVal] at hok
  rw [if_neg (by simp)] at hok
  have hg1 : g1 = (mergeNode g lbl "obo_id" (Val.vstr x) (ontCreateProps od t)
      (touchCount t)).1 := by
    cases hok
    rfl
  rw [hg1, mergeNode_findNode (by simp) (by decide) (by decide) (touchOK_touchCount t)]
  rfl

/-! ## Claim C10 -/

/-- C10: for every external item, the body_text property stored on the
external node at creation is the first at most 5000 characters of the record
body text (the empty string when the body text is absent); every other
normalized field (title, summary, published_at, authors, tags) is stored
untruncated. -/
theorem claim_C10_body_text_truncation (g : Graph) (m : Metrics)
    (item : ExternalItem) (t : Nat) (ni : NormalizedItem) (u : String)
    (hni : item.normalized_item = some ni) (hurl : ni.source_url = some u)
    (hf : findNode g (type_to_label (ni.itype.getD "news")) "source_url"
      (Val.vstr u) = none) :
    ∃ g' m' n, ensure_external_node g m item t = Except.ok (g', m', Val.vstr u) ∧
      g'.nodes = g.nodes ++ [n] ∧
      getProp n.props "body_text" =
        Val.vstr (pySlice (ni.body_text.getD "") 5000) ∧
      (pySlice (ni.body_text.getD "") 5000).length ≤ 5000 ∧
      (ni.body_text = none → getProp n.props "body_text" = Val.vstr "") ∧
      getProp n.props "title" = Val.vstr (ni.title.getD "") ∧
      getProp n.props "summary" = Val.vstr (ni.summary.getD "") ∧
      getProp n.props "published_at" = Val.vstr (ni.published_at.getD "") ∧
      getProp n.props "authors" = Val.vlist ni.authors ∧
      getProp n.props "tags" = Val.vlist ni.tags := by
  refine ⟨_, _, _, ensure_external_node_create m t hni hurl hf, rfl,
    ?_, pySlice_length _ 5000, ?_, ?_, ?_, ?_, ?_, ?_⟩
  · simp [extCreateProps, getProp, bodyTextStored_eq]
  · intro hnone
    simp [extCreateProps, getProp, hnone, bodyTextStored_none]
  · simp [extCreateProps, getProp]
  · simp [extCreateProps, getProp]
  · simp [extCreateProps, getProp]
  · simp [extCreateProps, getProp]
  · simp [extCreateProps, getProp]

/-- A concrete external item exercising C10. -/
def c10Item : ExternalItem :=
  ⟨some ⟨some "news", some "http://a", some "T", some "S", some "P",
    ["au"], ["tg"], some "hello"⟩, [], none⟩

theorem claim_C10_body_text_truncation_witness :
    ∃ g' m' n, ensure_external_node emptyGraph [] c10Item 0 =
        Except.ok (g', m', Val.vstr "http://a") ∧
      g'.nodes = emptyGraph.nodes ++ [n] ∧
      getProp n.props "body_text" = Val.vstr "hello" ∧
      getProp n.props "title" = Val.vstr "T" := by
  obtain ⟨g', m', n, h1, h2, h3, _, _, h6, _⟩ :=
    claim_C10_body_text_truncation emptyGraph [] c10Item 0 _ "http://a" rfl rfl rfl
  refine ⟨g', m', n, h1, h2, ?_, by simpa using h6⟩
  rw [h3]
  decide

/-! ## Claim C9 -/

/-- C9 (amended): in the external-item loader, for a grounded entity of one
of the ontology-capable types (organism, tissue, cell_type, phenotype,
chemical, pathway) whose source_obo field is absent, the node upsert keys the
node on the source-local id property while the MENTIONS lookup keys the
target on the obo_id property, so the node is created or touched but no
MENTIONS edge is created; for the remaining entity types (exposure, platform,
mission, assay, duration) both sides key on id, so the claim as frozen fails
there (see the counterexample). -/
theorem claim_C9_mentions_key_mismatch (g : Graph) (m : Metrics) (url : Val)
    (slbl : String) (e : GroundedEntity) (t : Nat) (et lbl x : String)
    (het : e.entity_type = some et)
    (hsix : et ∈ ["organism", "tissue", "cell_type", "phenotype",
      "chemical", "pathway"])
    (hlbl : entityLabelMap et = some lbl)
    (hso : e.source_obo = none) (hid : e.id = some x)
    (hnoobo : findNode g lbl "obo_id" (Val.vstr x) = none) :
    ∃ g1 m1, ensure_biomedical_node g m e t =
        Except.ok (g1, m1, some (Val.vstr x)) ∧
      (findNode g1 lbl "id" (Val.vstr x)).isSome ∧
      mentionsLabelMap e et = some (lbl, "obo_id") ∧
      (create_mentions_edge g1 m1 url slbl e t).1 = g1 ∧
      g1.edges = g.edges := by
  have hob : sourceOboGrounded e.source_obo = false := by rw [hso]; rfl
  have heq := ensure_biomedical_node_custom g m t het hlbl hid hob
  refine ⟨_, _, heq, ?_, ?_, ?_, ?_⟩
  · rw [mergeNode_findNode (by simp) (by decide) (by decide) (touchOK_touchCount t)]
    rfl
  · fin_cases hsix <;>
      simp_all [entityLabelMap, mentionsLabelMap, hso]
  · have hmap : mentionsLabelMap e et = some (lbl, "obo_id") := by
      fin_cases hsix <;> simp_all [entityLabelMap, mentionsLabelMap, hso]
    have hnew : nodeMatchB ⟨lbl, ("id", Val.vstr x) :: bioCreatePropsId e t⟩
        lbl "obo_id" (Val.vstr x) = false := by
      simp [nodeMatchB, getProp, bioCreatePropsId]
    have hnone2 : findNode (mergeNode g lbl "id" (Val.vstr x)
        (bioCreatePropsId e t) (touchCount t)).1 lbl "obo_id" (Val.vstr x) = none :=
      findNode_none_mergeNode (touchOK_touchCount t) (by decide) (by decide) hnew hnoobo
    exact create_mentions_edge_no_target _ slbl t het hmap (by rw [hid]; exact hnone2)
  · exact mergeNode_edges

/-- A concrete refutation of C9 as frozen: an exposure entity with absent
source_obo does get a MENTIONS edge, because for the non-ontology types the
edge lookup uses the id property the node was keyed with. -/
theorem claim_C9_counterexample :
    (match (loadEntities (Val.vstr "u1") "NewsItem" 0
        ⟨[⟨"NewsItem", [("source_url", Val.vstr "u1")]⟩], []⟩ []
        [⟨some "exposure", some "EXP1", some "micro", none, Val.vnull⟩]).1 with
     | Except.ok gr =>
         gr.edges.length == 1 && gr.edges.all (fun ed => ed.etype == "MENTIONS")
     | Except.error _ => false) = true := by
  decide

/-! ## Claim C8 -/

/-- C8 (amended): an edge upsert whose (type, source, target) triple already
exists is a no-op on the graph, and every call - creating or touching -
increments the one per-type counter (rel_TYPE resp. rel_MENTIONS); the
metrics therefore do not distinguish edges created from edges merely
touched (the spec postulates a distinct touch metric that the code does not
have, see the counterexample). -/
theorem claim_C8_touch_metric (g : Graph) (m : Metrics) (fl fp : String)
    (fv : Val) (rt tl tp : String) (tv : Val) (props : Props) (t : Nat)
    (url : Val) (slbl : String) (e : GroundedEntity) (et tlbl idp : String)
    (het : e.entity_type = some et)
    (hmap : mentionsLabelMap e et = some (tlbl, idp)) :
    (create_relationship g m fl fp fv rt tl tp tv props t).2 =
      bump m ("rel_" ++ rt) ∧
    (edgeKeyed g rt fl fp fv tl tp tv →
      (create_relationship g m fl fp fv rt tl tp tv props t).1 = g) ∧
    (create_mentions_edge g m url slbl e t).2 = bump m "rel_MENTIONS" ∧
    ((∃ i j, findNode g slbl "source_url" url = some i ∧
        findNode g tlbl idp (oVal e.id) = some j ∧
        edgeExistsB g "MENTIONS" i j = true) →
      (create_mentions_edge g m url slbl e t).1 = g) := by
  refine ⟨create_relationship_metrics g m fl fp fv rt tl tp tv props t,
    fun h => create_relationship_noop m props t h,
    create_mentions_edge_metrics m slbl t het hmap, ?_⟩
  rintro ⟨i, j, h1, h2, h3⟩
  simp only [create_mentions_edge, het, hmap, h1, h2]
  exact mergeEdge_exists g _ h3

theorem claim_C8_touch_metric_witness :
    (create_relationship emptyGraph [] "Paper" "pmcid" (Val.vstr "P") "REPORTS"
      "Finding" "uuid" (Val.vstr "F") [] 0).2 = [("rel_REPORTS", 1)] ∧
    (create_mentions_edge emptyGraph [] (Val.vstr "u") "NewsItem"
      ⟨some "organism", some "OBO1", none, some "NCBI", Val.vnull⟩ 0).2 =
      [("rel_MENTIONS", 1)] := by
  obtain ⟨h1, _, h3, _⟩ := claim_C8_touch_metric emptyGraph [] "Paper" "pmcid"
    (Val.vstr "P") "REPORTS" "Finding" "uuid" (Val.vstr "F") [] 0
    (Val.vstr "u") "NewsItem"
    ⟨some "organism", some "OBO1", none, some "NCBI", Val.vnull⟩
    "organism" "Organism" "obo_id" rfl (by decide)
  exact ⟨by rw [h1]; rfl, by rw [h3]; rfl⟩

/-- The two-node graph and the repeated REPORTS upsert used to refute the
frozen C8. -/
def c8Graph : Graph :=
  ⟨[⟨"Paper", [("pmcid", Val.vstr "P")]⟩, ⟨"Finding", [("uuid", Val.vstr "F")]⟩], []⟩

def c8First : Graph × Metrics :=
  create_relationship c8Graph [] "Paper" "pmcid" (Val.vstr "P") "REPORTS"
    "Finding" "uuid" (Val.vstr "F") [] 0

def c8Second : Graph × Metrics :=
  create_relationship c8First.1 c8First.2 "Paper" "pmcid" (Val.vstr "P")
    "REPORTS" "Finding" "uuid" (Val.vstr "F") [] 1

/-- Refutation of C8 as frozen: after creating and then re-upserting the
same REPORTS triple, the graph holds one edge while the metrics hold exactly
one counter, rel_REPORTS = 2 - the touch incremented the same counter as
the creation, not a distinct touch metric. -/
theorem claim_C8_counterexample :
    c8Second.1.edges.length = 1 ∧ c8Second.2 = [("rel_REPORTS", 2)] := by
  decide

/-! ## Claim C2 -/

/-- C2: for both edge writers, a (type, source identity, target identity)
triple is created at most once (pairwise uniqueness of triples is
preserved), every existing edge survives any later upsert unchanged with
the properties written at its creation (whatever values the later call
carries), and re-upserting an existing keyed edge leaves the graph
untouched. -/
theorem claim_C2_edge_immutability (g : Graph) (m : Metrics) (fl fp : String)
    (fv : Val) (rt tl tp : String) (tv : Val) (props : Props) (t : Nat)
    (url : Val) (slbl : String) (e : GroundedEntity) (hu : edgesUnique g) :
    (edgesUnique (create_relationship g m fl fp fv rt tl tp tv props t).1 ∧
      ∀ ed ∈ g.edges,
        ed ∈ (create_relationship g m fl fp fv rt tl tp tv props t).1.edges) ∧
    (edgeKeyed g rt fl fp fv tl tp tv →
      (create_relationship g m fl fp fv rt tl tp tv props t).1 = g) ∧
    (edgesUnique (create_mentions_edge g m url slbl e t).1 ∧
      ∀ ed ∈ g.edges, ed ∈ (create_mentions_edge g m url slbl e t).1.edges) := by
  refine ⟨⟨?_, ?_⟩, fun h => create_relationship_noop m props t h, ?_, ?_⟩
  · rcases create_relationship_graph_cases g m fl fp fv rt tl tp tv props t with
      h | ⟨i, j, _, _, h⟩
    · rw [h]; exact hu
    · rw [h]; exact edgesUnique_mergeEdge hu rt i j _
  · intro ed hed
    exact mem_edges_extends
      (create_relationship_extends g m fl fp fv rt tl tp tv props t) hed
  · rcases create_mentions_edge_graph_cases g m url slbl e t with
      h | ⟨i, j, _, _, _, _, h⟩
    · rw [h]; exact hu
    · rw [h]; exact edgesUnique_mergeEdge hu "MENTIONS" i j _
  · intro ed hed
    exact mem_edges_extends (create_mentions_edge_extends g m url slbl e t) hed

theorem claim_C2_edge_immutability_witness :
    edgesUnique (create_relationship
      ⟨[⟨"Paper", [("pmcid", Val.vstr "P")]⟩,
        ⟨"Finding", [("uuid", Val.vstr "F")]⟩], []⟩ []
      "Paper" "pmcid" (Val.vstr "P") "REPORTS" "Finding" "uuid"
      (Val.vstr "F") [] 0).1 :=
  (claim_C2_edge_immutability
    ⟨[⟨"Paper", [("pmcid", Val.vstr "P")]⟩,
      ⟨"Finding", [("uuid", Val.vstr "F")]⟩], []⟩ []
    "Paper" "pmcid" (Val.vstr "P") "REPORTS" "Finding" "uuid" (Val.vstr "F")
    [] 0 (Val.vstr "u") "NewsItem"
    ⟨some "organism", some "O1", none, none, Val.vnull⟩
    (by simp [edgesUnique])).1.1

/-! ## Claim C5 -/

/-- C5: identity resolution for ontology-backed entities: when the entity
carries an ontology grounding whose source is truthy and not the CUSTOM
sentinel, the upsert keys the node on the obo_id identity property, so
records grounded to the same ontology term resolve to one node, also across
the two loaders (third conjunct: loading a grounded external entity after
the finding loader created the same term adds no node); otherwise the
upsert falls back to the source-local id property. -/
theorem claim_C5_identity_resolution (g : Graph) (m m2 mF : Metrics)
    (e : GroundedEntity) (t t2 : Nat) (et lbl x : String)
    (od : OntologyTerm) (exP : Props)
    (het : e.entity_type = some et) (hlbl : entityLabelMap et = some lbl)
    (hid : e.id = some x) :
    (sourceOboGrounded e.source_obo = true →
      ∃ g1 m1, ensure_biomedical_node g m e t =
          Except.ok (g1, m1, some (Val.vstr x)) ∧
        (findNode g1 lbl "obo_id" (Val.vstr x)).isSome) ∧
    (sourceOboGrounded e.source_obo = false →
      ∃ g1 m1, ensure_biomedical_node g m e t =
          Except.ok (g1, m1, some (Val.vstr x)) ∧
        (findNode g1 lbl "id" (Val.vstr x)).isSome) ∧
    (∀ gF g1 m1 v, od.id = some x →
      ensure_ontology_node gF mF lbl od exP t2 = Except.ok (g1, m1, v) →
      sourceOboGrounded e.source_obo = true →
      ∃ g2 mm, ensure_biomedical_node g1 m2 e t =
          Except.ok (g2, mm, some (Val.vstr x)) ∧
        g2.nodes.length = g1.nodes.length) := by
  refine ⟨?_, ?_, ?_⟩
  · intro hob
    refine ⟨_, _, ensure_biomedical_node_grounded g m t het hlbl hid hob, ?_⟩
    rw [mergeNode_findNode (by simp) (by decide) (by decide) (touchOK_touchCount t)]
    rfl
  · intro hob
    refine ⟨_, _, ensure_biomedical_node_custom g m t het hlbl hid hob, ?_⟩
    rw [mergeNode_findNode (by simp) (by decide) (by decide) (touchOK_touchCount t)]
    rfl
  · intro gF g1 m1 v hodid hok hob
    have hex : (findNode g1 lbl "obo_id" (Val.vstr x)).isSome :=
      ensure_ontology_node_exists hodid hok
    obtain ⟨i, hi⟩ := Option.isSome_iff_exists.1 hex
    refine ⟨_, _, ensure_biomedical_node_grounded g1 m2 t het hlbl hid hob, ?_⟩
    exact mergeNode_nodes_length_found hi

theorem claim_C5_identity_resolution_witness :
    ∃ g1 m1, ensure_biomedical_node emptyGraph []
        ⟨some "phenotype", some "HP:1", some "bone loss", some "HP", Val.vnull⟩ 0 =
        Except.ok (g1, m1, some (Val.vstr "HP:1")) ∧
      (findNode g1 "Phenotype" "obo_id" (Val.vstr "HP:1")).isSome :=
  (claim_C5_identity_resolution emptyGraph [] [] []
    ⟨some "phenotype", some "HP:1", some "bone loss", some "HP", Val.vnull⟩
    0 0 "phenotype" "Phenotype" "HP:1"
    ⟨some "HP:1", some "bone loss", some "HP", []⟩ []
    rfl (by decide) rfl).1 (by decide)

theorem claim_C9_mentions_key_mismatch_witness :
    ∃ g1 m1, ensure_biomedical_node emptyGraph []
        ⟨some "organism", some "ORG1", some "mouse", none, Val.vnull⟩ 0 =
        Except.ok (g1, m1, some (Val.vstr "ORG1")) ∧
      (findNode g1 "Organism" "id" (Val.vstr "ORG1")).isSome ∧
      (create_mentions_edge g1 m1 (Val.vstr "u") "NewsItem"
        ⟨some "organism", some "ORG1", some "mouse", none, Val.vnull⟩ 0).1 = g1 := by
  obtain ⟨g1, m1, h1, h2, _, h4, _⟩ := claim_C9_mentions_key_mismatch emptyGraph []
    (Val.vstr "u") "NewsItem"
    ⟨some "organism", some "ORG1", some "mouse", none, Val.vnull⟩
    0 "organism" "Organism" "ORG1" rfl (by decide) (by decide) rfl rfl rfl
  exact ⟨g1, m1, h1, h2, h4⟩

/-! ## Claim C4 -/

theorem linkToOne_found_nodes {g : Graph} {slbl : String} {url : Val}
    {tlbl tkey : String} {pid : String} (t : Nat) {i j : Nat}
    (hsrc : findNode g slbl "source_url" url = some i)
    (htgt : findNode g tlbl tkey (Val.vstr pid) = some j) :
    (linkToOne g slbl url tlbl tkey pid t).nodes = g.nodes := by
  unfold linkToOne
  rw [hsrc]
  simp only [mergeNode_found htgt]
  rw [mergeEdge_nodes]
  simp [modifyNode_id]

/-- C4 (amended): on first creation every node kind records first_seen (and
ontology-backed nodes start source_count at 1); on a later touch,
ontology-backed and biomedical nodes refresh last_seen and increment
source_count, Paper, Finding and external-item nodes refresh last_seen and
change nothing else (they carry no occurrence counter), and the placeholder
nodes lazily merged by LINKS_TO are left entirely unchanged (the frozen
claim, that every node type updates a counter and a timestamp alike, fails
on Paper nodes - see the counterexample). -/
theorem claim_C4_touch_semantics :
    (∀ (g : Graph) (m : Metrics) (lbl : String) (od : OntologyTerm)
        (ex : Props) (t : Nat) (x : String) (i : Nat) (n : GNode),
      od.id = some x → findNode g lbl "obo_id" (Val.vstr x) = some i →
      g.nodes[i]? = some n →
      ∃ g' m', ensure_ontology_node g m lbl od ex t =
          Except.ok (g', m', Val.vstr x) ∧
        g'.nodes[i]? = some ⟨n.label, touchCount t n.props⟩ ∧
        getProp (touchCount t n.props) "last_seen" = tsVal t ∧
        getProp (touchCount t n.props) "source_count" =
          bumpCount (getProp n.props "source_count")) ∧
    (∀ (g : Graph) (m : Metrics) (p : String) (pd : Option PaperData)
        (t : Nat) (i : Nat) (n : GNode),
      findNode g "Paper" "pmcid" (Val.vstr p) = some i →
      g.nodes[i]? = some n →
      ∃ g', ensure_paper_node g m (some p) pd t =
          Except.ok (g', bump m "node_Paper", Val.vstr p) ∧
        g'.nodes[i]? = some ⟨n.label, touchSeen t n.props⟩ ∧
        getProp (touchSeen t n.props) "last_seen" = tsVal t ∧
        (∀ k, k ≠ "last_seen" →
          getProp (touchSeen t n.props) k = getProp n.props k)) ∧
    (∀ (g : Graph) (m : Metrics) (f : Finding) (fresh : String) (t : Nat)
        (u : String) (i : Nat) (n : GNode),
      f.uuid = some u → findNode g "Finding" "uuid" (Val.vstr u) = some i →
      g.nodes[i]? = some n →
      (ensure_finding_node g m f fresh t).1.nodes[i]? =
        some ⟨n.label, touchSeen t n.props⟩) ∧
    (∀ (g : Graph) (m : Metrics) (item : ExternalItem) (t : Nat)
        (ni : NormalizedItem) (u : String) (i : Nat) (n : GNode),
      item.normalized_item = some ni → ni.source_url = some u →
      findNode g (type_to_label (ni.itype.getD "news")) "source_url"
        (Val.vstr u) = some i →
      g.nodes[i]? = some n →
      ∃ g' m', ensure_external_node g m item t = Except.ok (g', m', Val.vstr u) ∧
        g'.nodes[i]? = some ⟨n.label, touchSeen t n.props⟩) ∧
    (∀ (g : Graph) (slbl : String) (url : Val) (tlbl tkey pid : String)
        (t : Nat) (i j : Nat),
      findNode g slbl "source_url" url = some i →
      findNode g tlbl tkey (Val.vstr pid) = some j →
      (linkToOne g slbl url tlbl tkey pid t).nodes = g.nodes) ∧
    (∀ (od : OntologyTerm) (t : Nat),
      getProp (ontCreateProps od t) "first_seen" = tsVal t ∧
      getProp (ontCreateProps od t) "source_count" = Val.vint 1) ∧
    (∀ (pd : Option PaperData) (t : Nat),
      getProp (paperCreateProps pd t) "first_seen" = tsVal t) ∧
    (∀ (f : Finding) (t : Nat),
      getProp (findingCreateProps f t) "first_seen" = tsVal t) ∧
    (∀ (ni : NormalizedItem) (ty : String) (t : Nat),
      getProp (extCreateProps ni ty t) "first_seen" = tsVal t) ∧
    (∀ t : Nat,
      getProp [("first_seen", tsVal t), ("last_seen", tsVal t)] "first_seen" =
        tsVal t) := by
  refine ⟨?_, ?_, ?_, ?_, ?_, ?_, ?_, ?_, ?_, ?_⟩
  · intro g m lbl od ex t x i n hid hf hn
    refine ⟨_, _, ensure_ontology_node_found m ex t hid hf, ?_, ?_, ?_⟩
    · exact getProp_modifyNode_label g.nodes i n hn
    · unfold touchCount
      rw [getProp_setProp_ne _ _ _ _ (by decide), getProp_setProp_self]
    · unfold touchCount
      rw [getProp_setProp_self]
  · intro g m p pd t i n hf hn
    refine ⟨_, ensure_paper_node_found m pd t hf, ?_, ?_, ?_⟩
    · exact getProp_modifyNode_label g.nodes i n hn
    · unfold touchSeen
      rw [getProp_setProp_self]
    · intro k hk
      exact getProp_setProp_ne _ _ _ _ hk
  · intro g m f fresh t u i n hu hf hn
    rw [ensure_finding_node_found m fresh t hu hf]
    exact getProp_modifyNode_label g.nodes i n hn
  · intro g m item t ni u i n hni hurl hf hn
    refine ⟨_, _, ensure_external_node_found m t hni hurl hf, ?_⟩
    exact getProp_modifyNode_label g.nodes i n hn
  · intro g slbl url tlbl tkey pid t i j hsrc htgt
    exact linkToOne_found_nodes t hsrc htgt
  · intro od t
    constructor <;> simp [ontCreateProps, getProp]
  · intro pd t
    cases pd <;> simp [paperCreateProps, getProp]
  · intro f t
    simp [findingCreateProps, getProp]
  · intro ni ty t
    simp [extCreateProps, getProp]
  · intro t
    simp [getProp]

theorem claim_C4_touch_semantics_witness :
    ∃ g' m', ensure_ontology_node
        ⟨[⟨"Phenotype", [("obo_id", Val.vstr "HP:1"),
          ("source_count", Val.vint 1)]⟩], []⟩ [] "Phenotype"
        ⟨some "HP:1", some "bone loss", some "HP", []⟩ [] 7 =
        Except.ok (g', m', Val.vstr "HP:1") ∧
      g'.nodes[0]? = some ⟨"Phenotype",
        touchCount 7 [("obo_id", Val.vstr "HP:1"), ("source_count", Val.vint 1)]⟩ ∧
      getProp (touchCount 7 [("obo_id", Val.vstr "HP:1"),
        ("source_count", Val.vint 1)]) "last_seen" = tsVal 7 ∧
      getProp (touchCount 7 [("obo_id", Val.vstr "HP:1"),
        ("source_count", Val.vint 1)]) "source_count" =
        bumpCount (getProp [("obo_id", Val.vstr "HP:1"),
          ("source_count", Val.vint 1)] "source_count") :=
  claim_C4_touch_semantics.1
    ⟨[⟨"Phenotype", [("obo_id", Val.vstr "HP:1"), ("source_count", Val.vint 1)]⟩], []⟩
    [] "Phenotype" ⟨some "HP:1", some "bone loss", some "HP", []⟩ [] 7 "HP:1" 0
    ⟨"Phenotype", [("obo_id", Val.vstr "HP:1"), ("source_count", Val.vint 1)]⟩
    rfl (by decide) rfl

/-- Refutation of C4 as frozen: a Paper node touched a second time has its
last_seen refreshed but carries no occurrence counter at all (source_count
reads as null, not an incremented counter), so it is false that every node
type increments an occurrence counter on re-ingestion. -/
theorem claim_C4_counterexample :
    (match ensure_paper_node emptyGraph [] (some "PMC1") none 1 with
     | Except.ok (g1, m1, _) =>
         (match ensure_paper_node g1 m1 (some "PMC1") none 2 with
          | Except.ok (g2, _, _) =>
              (g2.nodes.map (fun n => getProp n.props "source_count"))
                  == [Val.vnull] &&
              (g2.nodes.map (fun n => getProp n.props "last_seen")) == [tsVal 2]
          | Except.error _ => false)
     | Except.error _ => false) = true := by
  decide

/-! ## Claim C7 -/

theorem loadJsonlAux_dry (freshFn : Nat → String) (bs t : Nat) :
    ∀ (lines : List (Line Finding)) (st : RunSt) (pending : List Finding)
      (total : Nat),
      (loadJsonlAux true freshFn bs t lines st pending total).1.g = st.g ∧
      (loadJsonlAux true freshFn bs t lines st pending total).1.c = st.c ∧
      ∀ k, k ≠ "parse_errors" →
        getM (loadJsonlAux true freshFn bs t lines st pending total).1.m k =
          getM st.m k := by
  intro lines
  induction lines with
  | nil =>
      intro st pending total
      by_cases h : pending.isEmpty <;>
        simp [loadJsonlAux, h, load_findings_batch]
  | cons hd rest ih =>
      intro st pending total
      cases hd with
      | blank => exact ih st pending total
      | malformed =>
          simp only [loadJsonlAux]
          obtain ⟨h1, h2, h3⟩ := ih ⟨st.g, bump st.m "parse_errors", st.c⟩ pending total
          exact ⟨h1, h2, fun k hk => (h3 k hk).trans (getM_bump_ne _ _ _ hk)⟩
      | record f =>
          have hb : load_findings_batch true freshFn t st (pending ++ [f]) = st := rfl
          simp only [loadJsonlAux]
          by_cases h : bs ≤ (pending ++ [f]).length
          · rw [if_pos h, hb]
            exact ih st [] _
          · rw [if_neg h]
            exact ih st (pending ++ [f]) total

theorem loadNdjsonAux_dry (bs t : Nat) :
    ∀ (lines : List (Line ExternalItem)) (st : ExtSt)
      (pending : List ExternalItem) (total : Nat),
      (loadNdjsonAux true bs t lines st pending total).1.g = st.g ∧
      ∀ k, k ≠ "parse_errors" →
        getM (loadNdjsonAux true bs t lines st pending total).1.m k =
          getM st.m k := by
  intro lines
  induction lines with
  | nil =>
      intro st pending total
      by_cases h : pending.isEmpty <;>
        simp [loadNdjsonAux, h, load_external_batch]
  | cons hd rest ih =>
      intro st pending total
      cases hd with
      | blank => exact ih st pending total
      | malformed =>
          simp only [loadNdjsonAux]
          obtain ⟨h1, h3⟩ := ih ⟨st.g, bump st.m "parse_errors"⟩ pending total
          exact ⟨h1, fun k hk => (h3 k hk).trans (getM_bump_ne _ _ _ hk)⟩
      | record it =>
          have hb : load_external_batch true t st (pending ++ [it]) = st := rfl
          simp only [loadNdjsonAux]
          by_cases h : bs ≤ (pending ++ [it]).length
          · rw [if_pos h, hb]
            exact ih st [] _
          · rw [if_neg h]
            exact ih st (pending ++ [it]) total

/-- C7 (amended): a dry run performs no writes at all - the graph is left
exactly as it was, for both loaders - and its returned metrics differ from
the prior metrics only in parse_errors and total_loaded; the would-be
per-label node and per-type edge counters are not simulated (they keep their
prior values), so they do not match the counts a live run would report (see
the counterexample). -/
theorem claim_C7_dry_run (freshFn : Nat → String) (bs t : Nat)
    (lines : List (Line Finding)) (st : RunSt)
    (elines : List (Line ExternalItem)) (est : ExtSt) (k : String)
    (hk1 : k ≠ "parse_errors") (hk2 : k ≠ "total_loaded") :
    (load_from_jsonl true freshFn bs t lines st).g = st.g ∧
    getM (load_from_jsonl true freshFn bs t lines st).m k = getM st.m k ∧
    (load_from_ndjson true bs t elines est).g = est.g ∧
    getM (load_from_ndjson true bs t elines est).m k = getM est.m k := by
  obtain ⟨h1, _, h3⟩ := loadJsonlAux_dry freshFn bs t lines st [] 0
  obtain ⟨h4, h5⟩ := loadNdjsonAux_dry bs t elines est [] 0
  refine ⟨h1, ?_, h4, ?_⟩
  · show getM (setM _ "total_loaded" _) k = _
    rw [getM_setM_ne _ _ _ _ hk2]
    exact h3 k hk1
  · show getM (setM _ "total_loaded" _) k = _
    rw [getM_setM_ne _ _ _ _ hk2]
    exact h5 k hk1

/-- The one-finding input used for the C7 witness and counterexample. -/
def c7Rec : Finding :=
  ⟨some "u7", some "P7", none, Val.vnull, Val.vnull, Val.vnull, Val.vnull,
   [], [], none, none, none, none, none, none, Val.vnull, Val.vnull⟩

theorem claim_C7_dry_run_witness :
    (load_from_jsonl true (fun _ => "x") 100 0 [Line.record c7Rec]
      ⟨emptyGraph, [], 0⟩).g = emptyGraph ∧
    getM (load_from_jsonl true (fun _ => "x") 100 0 [Line.record c7Rec]
      ⟨emptyGraph, [], 0⟩).m "node_Paper" = getM [] "node_Paper" ∧
    (load_from_ndjson true 100 0 [] ⟨emptyGraph, []⟩).g = emptyGraph ∧
    getM (load_from_ndjson true 100 0 [] ⟨emptyGraph, []⟩).m "node_Paper" =
      getM [] "node_Paper" :=
  claim_C7_dry_run (fun _ => "x") 100 0 [Line.record c7Rec] ⟨emptyGraph, [], 0⟩
    [] ⟨emptyGraph, []⟩ "node_Paper" (by decide) (by decide)

/-- Refutation of C7 as frozen: on the same one-record input the live run
reports node_Paper = 1 and node_Finding = 1 while the dry run reports 0 for
both (no would-be counts are simulated), although the dry run does leave the
store untouched. -/
theorem claim_C7_counterexample :
    getM (load_from_jsonl false (fun _ => "x") 100 0 [Line.record c7Rec]
      ⟨emptyGraph, [], 0⟩).m "node_Paper" = 1 ∧
    getM (load_from_jsonl false (fun _ => "x") 100 0 [Line.record c7Rec]
      ⟨emptyGraph, [], 0⟩).m "node_Finding" = 1 ∧
    getM (load_from_jsonl true (fun _ => "x") 100 0 [Line.record c7Rec]
      ⟨emptyGraph, [], 0⟩).m "node_Paper" = 0 ∧
    getM (load_from_jsonl true (fun _ => "x") 100 0 [Line.record c7Rec]
      ⟨emptyGraph, [], 0⟩).m "node_Finding" = 0 ∧
    (load_from_jsonl true (fun _ => "x") 100 0 [Line.record c7Rec]
      ⟨emptyGraph, [], 0⟩).g = emptyGraph := by
  decide

/-! ## Claim C6 -/

/-- A minimal finding record with the given uuid and pmcid. -/
def mkRec (u p : Option String) : Finding :=
  ⟨u, p, none, Val.vnull, Val.vnull, Val.vnull, Val.vnull, [], [],
   none, none, none, none, none, none, Val.vnull, Val.vnull⟩

/-- The 10-line input of the spec scenario: line 5 is malformed JSON and
record 8 carries no usable identity key (no pmcid, so its first MERGE raises
on a null merge property). -/
def c6Lines : List (Line Finding) :=
  [Line.record (mkRec (some "u1") (some "P1")),
   Line.record (mkRec (some "u2") (some "P2")),
   Line.record (mkRec (some "u3") (some "P3")),
   Line.record (mkRec (some "u4") (some "P4")),
   Line.malformed,
   Line.record (mkRec (some "u6") (some "P6")),
   Line.record (mkRec (some "u7") (some "P7")),
   Line.record (mkRec (some "u8") none),
   Line.record (mkRec (some "u9") (some "P9")),
   Line.record (mkRec (some "u10") (some "P10"))]

/-- The run of the scenario with the default batch size. -/
def c6Run : RunSt :=
  load_from_jsonl false (fun _ => "fresh") 100 0 c6Lines ⟨emptyGraph, [], 0⟩

/-- C6 (amended): per-record failures are isolated - the malformed line is
counted under parse_errors and skipped, the record whose first merge raises
on a null identity key is counted under errors, its transaction is rolled
back, and records 6, 7, 9, 10 are still loaded (their Paper and Finding
nodes and REPORTS edges all exist: 8 Papers, 8 Findings, 8 edges) - but the
run reports total_loaded = 9, because the Python total counts every parsed
record handed to a batch, including the errored one, not 8 as the frozen
claim states. -/
theorem claim_C6_partial_failure_isolation :
    getM c6Run.m "total_loaded" = 9 ∧
    getM c6Run.m "parse_errors" = 1 ∧
    getM c6Run.m "errors" = 1 ∧
    c6Run.g.nodes.length = 16 ∧
    c6Run.g.edges.length = 8 ∧
    (findNode c6Run.g "Finding" "uuid" (Val.vstr "u9")).isSome ∧
    (findNode c6Run.g "Finding" "uuid" (Val.vstr "u10")).isSome ∧
    (findNode c6Run.g "Finding" "uuid" (Val.vstr "u8")).isNone := by
  decide

/-- Refutation of C6 as frozen: the run does not report 8 records
successfully loaded; total_loaded (the only total-records counter the run
reports) is 9, because the record with no identity key is still counted by
the batch total even though it raised and was rolled back. -/
theorem claim_C6_counterexample :
    getM c6Run.m "total_loaded" = 9 ∧ getM c6Run.m "total_loaded" ≠ 8 ∧
    getM c6Run.m "errors" = 1 := by
  decide

/-! ## Claim C3: referential integrity -/

theorem mergeNode_length_ge (g : Graph) (lbl key : String) (v : Val)
    (cp : Props) (touch : Props → Props) :
    g.nodes.length ≤ (mergeNode g lbl key v cp touch).1.nodes.length := by
  unfold mergeNode
  cases h : findNode g lbl key v
  · simp
  · simp [length_modifyNode]

theorem mergeNode_idx_lt (g : Graph) (lbl key : String) (v : Val)
    (cp : Props) (touch : Props → Props) :
    (mergeNode g lbl key v cp touch).2.1 <
      (mergeNode g lbl key v cp touch).1.nodes.length := by
  unfold mergeNode
  cases h : findNode g lbl key v with
  | some i =>
      simp only
      rw [length_modifyNode]
      exact findNode_lt h
  | none => simp

theorem wf_create_relationship {g : Graph} (hwf : wf g) (m : Metrics)
    (fl fp : String) (fv : Val) (rt tl tp : String) (tv : Val)
    (props : Props) (t : Nat) :
    wf (create_relationship g m fl fp fv rt tl tp tv props t).1 := by
  unfold create_relationship
  cases h1 : findNode g fl fp fv with
  | none => exact hwf
  | some i =>
      cases h2 : findNode g tl tp tv with
      | none => exact hwf
      | some j => exact wf_mergeEdge hwf (findNode_lt h1) (findNode_lt h2) _

theorem wf_create_mentions_edge {g : Graph} (hwf : wf g) (m : Metrics)
    (url : Val) (slbl : String) (e : GroundedEntity) (t : Nat) :
    wf (create_mentions_edge g m url slbl e t).1 := by
  rcases create_mentions_edge_graph_cases g m url slbl e t with
    h | ⟨i, j, _, _, h1, h2, h⟩
  · rw [h]; exact hwf
  · rw [h]; exact wf_mergeEdge hwf (findNode_lt h1) (findNode_lt h2) _

theorem wf_ensure_paper_node {g : Graph} {m : Metrics} {pmcid : Option String}
    {pd : Option PaperData} {t : Nat} {g1 : Graph} {m1 : Metrics} {v : Val}
    (h : ensure_paper_node g m pmcid pd t = Except.ok (g1, m1, v))
    (hwf : wf g) : wf g1 := by
  unfold ensure_paper_node at h
  by_cases hc : oVal pmcid = Val.vnull
  · rw [if_pos hc] at h
    cases h
  · rw [if_neg hc] at h
    cases h
    exact wf_mergeNode hwf _ _ _ _ _

theorem wf_ensure_ontology_node {g : Graph} {m : Metrics} {lbl : String}
    {od : OntologyTerm} {ex : Props} {t : Nat} {g1 : Graph} {m1 : Metrics}
    {v : Val}
    (h : ensure_ontology_node g m lbl od ex t = Except.ok (g1, m1, v))
    (hwf : wf g) : wf g1 := by
  unfold ensure_ontology_node at h
  by_cases hc : oVal od.id = Val.vnull
  · rw [if_pos hc] at h
    cases h
  · rw [if_neg hc] at h
    cases h
    exact wf_mergeNode hwf _ _ _ _ _

theorem wf_ensure_finding_node {g : Graph} (m : Metrics) (f : Finding)
    (fresh : String) (t : Nat) (hwf : wf g) :
    wf (ensure_finding_node g m f fresh t).1 := by
  unfold ensure_finding_node
  exact wf_mergeNode hwf _ _ _ _ _

theorem wf_ensure_external_node {g : Graph} {m : Metrics} {item : ExternalItem}
    {t : Nat} {g1 : Graph} {m1 : Metrics} {v : Val}
    (h : ensure_external_node g m item t = Except.ok (g1, m1, v))
    (hwf : wf g) : wf g1 := by
  unfold ensure_external_node at h
  by_cases hc : oVal (item.normalized_item.getD NormalizedItem.empty).source_url
      = Val.vnull
  · rw [if_pos hc] at h
    cases h
  · rw [if_neg hc] at h
    cases h
    exact wf_mergeNode hwf _ _ _ _ _

theorem wf_ensure_biomedical_node {g : Graph} {m : Metrics}
    {e : GroundedEntity} {t : Nat} {g1 : Graph} {m1 : Metrics}
    {v : Option Val}
    (h : ensure_biomedical_node g m e t = Except.ok (g1, m1, v))
    (hwf : wf g) : wf g1 := by
  unfold ensure_biomedical_node at h
  cases het : e.entity_type with
  | none =>
      rw [het] at h
      cases h
      exact hwf
  | some et =>
      rw [het] at h
      cases hlbl : entityLabelMap et with
      | none =>
          simp only [hlbl] at h
          cases h
          exact hwf
      | some lbl =>
          simp only [hlbl] at h
          by_cases hob : sourceOboGrounded e.source_obo
          · rw [if_pos hob] at h
            by_cases hc : oVal e.id = Val.vnull
            · rw [if_pos hc] at h
              cases h
            · rw [if_neg hc] at h
              cases h
              exact wf_mergeNode hwf _ _ _ _ _
          · rw [if_neg hob] at h
            by_cases hc : oVal e.id = Val.vnull
            · rw [if_pos hc] at h
              cases h
            · rw [if_neg hc] at h
              cases h
              exact wf_mergeNode hwf _ _ _ _ _

theorem wf_loadEntityStep {g : Graph} {m : Metrics} {fu lbl : String}
    {ot : Option OntologyTerm} {ex : Props} {rt : String} {rp : Props}
    {t : Nat} {g' : Graph}
    (h : (loadEntityStep g m fu lbl ot ex rt rp t).1 = Except.ok g')
    (hwf : wf g) : wf g' := by
  unfold loadEntityStep at h
  cases ot with
  | none =>
      simp only at h
      cases h
      exact hwf
  | some term =>
      simp only at h
      cases hon : ensure_ontology_node g m lbl term ex t with
      | error e =>
          rw [hon] at h
          cases h
      | ok r =>
          obtain ⟨g1, m1, oid⟩ := r
          rw [hon] at h
          simp only at h
          cases h
          exact wf_create_relationship (wf_ensure_ontology_node hon hwf) m1
            "Finding" "uuid" (Val.vstr fu) rt lbl "obo_id" oid rp t

theorem wf_load_finding {g : Graph} {m : Metrics} {f : Finding}
    {fresh : String} {t : Nat} {g' : Graph}
    (h : (load_finding g m f fresh t).1 = Except.ok g') (hwf : wf g) :
    wf g' := by
  unfold load_finding at h
  cases hp : ensure_paper_node g m f.pmcid none t with
  | error e =>
      rw [hp] at h
      cases h
  | ok r =>
      obtain ⟨g1, m1, pv⟩ := r
      rw [hp] at h
      simp only at h
      have hwf1 : wf g1 := wf_ensure_paper_node hp hwf
      have hwf2 : wf (ensure_finding_node g1 m1 f fresh t).1 :=
        wf_ensure_finding_node m1 f fresh t hwf1
      have hwf3 : wf (create_relationship (ensure_finding_node g1 m1 f fresh t).1
          (ensure_finding_node g1 m1 f fresh t).2.1 "Paper" "pmcid" pv "REPORTS"
          "Finding" "uuid" (Val.vstr (ensure_finding_node g1 m1 f fresh t).2.2)
          (reportsProps f) t).1 :=
        wf_create_relationship hwf2 _ _ _ _ _ _ _ _ _ _
      cases h1 : (loadEntityStep _ _ _ "Phenotype" f.phenotype [] "AFFECTS"
          (affectsProps f) t) with
      | mk r1 m4 =>
          rw [h1] at h
          cases r1 with
          | error e => exact Except.noConfusion h
          | ok g4 =>
              simp only at h
              have hwf4 : wf g4 := wf_loadEntityStep (by rw [h1]) hwf3
              cases h2 : (loadEntityStep g4 m4 _ "Tissue" f.tissue []
                  "OBSERVED_IN" [] t) with
              | mk r2 m5 =>
                  rw [h2] at h
                  cases r2 with
                  | error e => exact Except.noConfusion h
                  | ok g5 =>
                      simp only at h
                      have hwf5 : wf g5 := wf_loadEntityStep (by rw [h2]) hwf4
                      cases h3 : (loadEntityStep g5 m5 _ "CellType" f.cell_type []
                          "OBSERVED_IN" [] t) with
                      | mk r3 m6 =>
                          rw [h3] at h
                          cases r3 with
                          | error e => exact Except.noConfusion h
                          | ok g6 =>
                              simp only at h
                              have hwf6 : wf g6 := wf_loadEntityStep (by rw [h3]) hwf5
                              exact wf_loadEntityStep h hwf6

theorem wf_recordStep {s : RunSt} (hwf : wf s.g) (freshFn : Nat → String)
    (t : Nat) (f : Finding) : wf (recordStep freshFn t s f).g := by
  unfold recordStep
  cases h : load_finding s.g s.m f (freshFn s.c) t with
  | mk r m' =>
      cases r with
      | error e => exact hwf
      | ok g' =>
          have : (load_finding s.g s.m f (freshFn s.c) t).1 = Except.ok g' := by
            rw [h]
          exact wf_load_finding this hwf

theorem wf_foldl_recordStep (freshFn : Nat → String) (t : Nat) :
    ∀ (fs : List Finding) (s : RunSt), wf s.g →
      wf (fs.foldl (recordStep freshFn t) s).g := by
  intro fs
  induction fs with
  | nil => intro s hwf; exact hwf
  | cons f fs ih =>
      intro s hwf
      exact ih (recordStep freshFn t s f) (wf_recordStep hwf freshFn t f)

theorem wf_load_findings_batch {s : RunSt} (hwf : wf s.g) (dry : Bool)
    (freshFn : Nat → String) (t : Nat) (fs : List Finding) :
    wf (load_findings_batch dry freshFn t s fs).g := by
  unfold load_findings_batch
  by_cases hd : dry
  · rw [if_pos hd]; exact hwf
  · rw [if_neg hd]; exact wf_foldl_recordStep freshFn t fs s hwf

theorem wf_loadJsonlAux (dry : Bool) (freshFn : Nat → String) (bs t : Nat) :
    ∀ (lines : List (Line Finding)) (st : RunSt) (pending : List Finding)
      (total : Nat), wf st.g →
      wf (loadJsonlAux dry freshFn bs t lines st pending total).1.g := by
  intro lines
  induction lines with
  | nil =>
      intro st pending total hwf
      unfold loadJsonlAux
      by_cases h : pending.isEmpty
      · rw [if_pos h]; exact hwf
      · rw [if_neg h]; exact wf_load_findings_batch hwf dry freshFn t pending
  | cons hd rest ih =>
      intro st pending total hwf
      cases hd with
      | blank => exact ih st pending total hwf
      | malformed => exact ih _ pending total hwf
      | record f =>
          simp only [loadJsonlAux]
          by_cases h : bs ≤ (pending ++ [f]).length
          · rw [if_pos h]
            exact ih _ [] _ (wf_load_findings_batch hwf dry freshFn t _)
          · rw [if_neg h]
            exact ih st (pending ++ [f]) total hwf

theorem wf_load_from_jsonl {st : RunSt} (hwf : wf st.g) (dry : Bool)
    (freshFn : Nat → String) (bs t : Nat) (lines : List (Line Finding)) :
    wf (load_from_jsonl dry freshFn bs t lines st).g :=
  wf_loadJsonlAux dry freshFn bs t lines st [] 0 hwf

theorem wf_linkToOne {g : Graph} (hwf : wf g) (slbl : String) (url : Val)
    (tlbl tkey pid : String) (t : Nat) :
    wf (linkToOne g slbl url tlbl tkey pid t) := by
  unfold linkToOne
  cases hsrc : findNode g slbl "source_url" url with
  | none => exact hwf
  | some i =>
      simp only
      have hi : i < g.nodes.length := findNode_lt hsrc
      have hwf1 : wf (mergeNode g tlbl tkey (Val.vstr pid)
          [("first_seen", tsVal t), ("last_seen", tsVal t)] (fun ps => ps)).1 :=
        wf_mergeNode hwf _ _ _ _ _
      refine wf_mergeEdge hwf1 ?_ ?_ _
      · exact lt_of_lt_of_le hi (mergeNode_length_ge g _ _ _ _ _)
      · exact mergeNode_idx_lt g _ _ _ _ _

theorem wf_create_links_to_edges {g : Graph} (hwf : wf g) (m : Metrics)
    (url : Val) (slbl : String) (rids : ReferencedIds) (t : Nat) :
    wf (create_links_to_edges g m url slbl rids t).1 := by
  unfold create_links_to_edges
  have step : ∀ (tl tk mk : String) (ids : List String) (acc : Graph × Metrics),
      wf acc.1 →
      wf (ids.foldl (fun acc pid =>
        (linkToOne acc.1 slbl url tl tk pid t, bump acc.2 mk)) acc).1 := by
    intro tl tk mk ids
    induction ids with
    | nil => intro acc hacc; exact hacc
    | cons pid ids ih =>
        intro acc hacc
        exact ih _ (wf_linkToOne hacc slbl url tl tk pid t)
  exact step _ _ _ _ _ (step _ _ _ _ _ (step _ _ _ _ _ hwf))

theorem wf_loadEntities {url : Val} {lbl : String} {t : Nat} :
    ∀ (es : List GroundedEntity) (g : Graph) (m : Metrics) (g' : Graph),
      (loadEntities url lbl t g m es).1 = Except.ok g' → wf g → wf g' := by
  intro es
  induction es with
  | nil =>
      intro g m g' h hwf
      unfold loadEntities at h
      cases h
      exact hwf
  | cons e es ih =>
      intro g m g' h hwf
      unfold loadEntities at h
      cases hb : ensure_biomedical_node g m e t with
      | error err =>
          rw [hb] at h
          exact Except.noConfusion h
      | ok r =>
          obtain ⟨g1, m1, v⟩ := r
          rw [hb] at h
          simp only at h
          have hwf1 : wf g1 := wf_ensure_biomedical_node hb hwf
          have hwf2 : wf (create_mentions_edge g1 m1 url lbl e t).1 :=
            wf_create_mentions_edge hwf1 m1 url lbl e t
          exact ih _ _ _ h hwf2

theorem wf_load_external_item {g : Graph} {m : Metrics} {item : ExternalItem}
    {t : Nat} {g' : Graph}
    (h : (load_external_item g m item t).1 = Except.ok g') (hwf : wf g) :
    wf g' := by
  unfold load_external_item at h
  cases he : ensure_external_node g m item t with
  | error e =>
      rw [he] at h
      exact Except.noConfusion h
  | ok r =>
      obtain ⟨g1, m1, url⟩ := r
      rw [he] at h
      simp only at h
      have hwf1 : wf g1 := wf_ensure_external_node he hwf
      cases hl : loadEntities url (type_to_label
          ((item.normalized_item.getD NormalizedItem.empty).itype.getD "news"))
          t g1 m1 item.grounded_entities with
      | mk r2 m2 =>
          rw [hl] at h
          cases r2 with
          | error e => exact Except.noConfusion h
          | ok g2 =>
              simp only at h
              have hwf2 : wf g2 := wf_loadEntities _ _ _ _ (by rw [hl]) hwf1
              rcases hr : item.referenced_ids with _ | rids
              · rw [hr] at h
                cases h
                exact hwf2
              · rw [hr] at h
                cases h
                exact wf_create_links_to_edges hwf2 m2 url _ rids t

theorem wf_extRecordStep {s : ExtSt} (hwf : wf s.g) (t : Nat)
    (item : ExternalItem) : wf (extRecordStep t s item).g := by
  unfold extRecordStep
  cases h : load_external_item s.g s.m item t with
  | mk r m' =>
      cases r with
      | error e => exact hwf
      | ok g' =>
          exact wf_load_external_item (by rw [h]) hwf

theorem wf_load_external_batch {s : ExtSt} (hwf : wf s.g) (dry : Bool)
    (t : Nat) (items : List ExternalItem) :
    wf (load_external_batch dry t s items).g := by
  unfold load_external_batch
  by_cases hd : dry
  · rw [if_pos hd]; exact hwf
  · rw [if_neg hd]
    clear hd
    induction items generalizing s with
    | nil => exact hwf
    | cons it its ih => exact ih (wf_extRecordStep hwf t it)

theorem wf_loadNdjsonAux (dry : Bool) (bs t : Nat) :
    ∀ (lines : List (Line ExternalItem)) (st : ExtSt)
      (pending : List ExternalItem) (total : Nat), wf st.g →
      wf (loadNdjsonAux dry bs t lines st pending total).1.g := by
  intro lines
  induction lines with
  | nil =>
      intro st pending total hwf
      unfold loadNdjsonAux
      by_cases h : pending.isEmpty
      · rw [if_pos h]; exact hwf
      · rw [if_neg h]; exact wf_load_external_batch hwf dry t pending
  | cons hd rest ih =>
      intro st pending total hwf
      cases hd with
      | blank => exact ih st pending total hwf
      | malformed => exact ih _ pending total hwf
      | record it =>
          simp only [loadNdjsonAux]
          by_cases h : bs ≤ (pending ++ [it]).length
          · rw [if_pos h]
            exact ih _ [] _ (wf_load_external_batch hwf dry t _)
          · rw [if_neg h]
            exact ih st (pending ++ [it]) total hwf

/-- C3: referential integrity is an invariant of both ingestion runs: when
the store satisfies it at the start of a run, every edge of the resulting
graph - AFFECTS, OBSERVED_IN, IN_ORGANISM, REPORTS, MENTIONS, LINKS_TO alike -
still points at node positions present in the store.  The model enforces
the happens-before discipline by construction: create_relationship,
create_mentions_edge and linkToOne only materialize an edge after both
endpoint lookups succeed on the already-upserted nodes of the same unit of
work. -/
theorem claim_C3_referential_integrity (dry : Bool) (freshFn : Nat → String)
    (bs t bs2 t2 : Nat) (lines : List (Line Finding)) (st : RunSt)
    (elines : List (Line ExternalItem)) (est : ExtSt)
    (hwf : wf st.g) (hwfe : wf est.g) :
    wf (load_from_jsonl dry freshFn bs t lines st).g ∧
    wf (load_from_ndjson dry bs2 t2 elines est).g :=
  ⟨wf_load_from_jsonl hwf dry freshFn bs t lines,
   wf_loadNdjsonAux dry bs2 t2 elines est [] 0 hwfe⟩

theorem claim_C3_referential_integrity_witness :
    wf (load_from_jsonl false (fun _ => "x") 100 0 c6Lines
      ⟨emptyGraph, [], 0⟩).g ∧
    wf (load_from_ndjson false 100 0
      [Line.record ⟨some ⟨some "news", some "http://a", none, none, none,
        [], [], none⟩,
        [⟨some "organism", some "ORG1", some "mouse", some "NCBI", Val.vnull⟩],
        some ⟨["PMC9"], [], []⟩⟩] ⟨emptyGraph, []⟩).g :=
  claim_C3_referential_integrity false (fun _ => "x") 100 0 100 0 c6Lines
    ⟨emptyGraph, [], 0⟩ _ ⟨emptyGraph, []⟩ wf_empty wf_empty

/-! ## Claim C1: idempotency machinery

A record raises (and is rolled back) exactly when one of its MERGE keys is
null: no pmcid, or an entity wrapper whose ontology term lacks an id.  This
condition depends on the record only, so a failing record contributes no
writes in any run.  A non-failing record with a carried uuid writes a fixed
set of keyed nodes and edges (findingLoaded); once present, re-loading the
record only touches metadata, leaving node and edge counts unchanged. -/

def termFails : Option OntologyTerm → Bool
  | none => false
  | some ot => ot.id.isNone

def findingFails (f : Finding) : Bool :=
  f.pmcid.isNone || termFails f.phenotype || termFails f.tissue ||
    termFails f.cell_type || termFails f.organism

def termLoaded (g : Graph) (u lbl rt : String) : Option OntologyTerm → Prop
  | none => True
  | some ot => ∃ x, ot.id = some x ∧
      (findNode g lbl "obo_id" (Val.vstr x)).isSome ∧
      edgeKeyed g rt "Finding" "uuid" (Val.vstr u) lbl "obo_id" (Val.vstr x)

def findingLoaded (g : Graph) (f : Finding) (u : String) : Prop :=
  ∃ p, f.pmcid = some p ∧
    (findNode g "Paper" "pmcid" (Val.vstr p)).isSome ∧
    (findNode g "Finding" "uuid" (Val.vstr u)).isSome ∧
    edgeKeyed g "REPORTS" "Paper" "pmcid" (Val.vstr p) "Finding" "uuid"
      (Val.vstr u) ∧
    termLoaded g u "Phenotype" "AFFECTS" f.phenotype ∧
    termLoaded g u "Tissue" "OBSERVED_IN" f.tissue ∧
    termLoaded g u "CellType" "OBSERVED_IN" f.cell_type ∧
    termLoaded g u "Organism" "IN_ORGANISM" f.organism

theorem termLoaded_stable {g g' : Graph} (hext : Extends g g') {u lbl rt : String}
    {ot : Option OntologyTerm} (h : termLoaded g u lbl rt ot) :
    termLoaded g' u lbl rt ot := by
  cases ot with
  | none => trivial
  | some term =>
      obtain ⟨x, hx, hn, he⟩ := h
      exact ⟨x, hx, nodeExists_stable hext (by decide) (by decide) hn,
        edgeKeyed_stable hext (by decide) (by decide) (by decide) (by decide) he⟩

theorem findingLoaded_stable {g g' : Graph} (hext : Extends g g') {f : Finding}
    {u : String} (h : findingLoaded g f u) : findingLoaded g' f u := by
  obtain ⟨p, hp, h1, h2, h3, h4, h5, h6, h7⟩ := h
  exact ⟨p, hp, nodeExists_stable hext (by decide) (by decide) h1,
    nodeExists_stable hext (by decide) (by decide) h2,
    edgeKeyed_stable hext (by decide) (by decide) (by decide) (by decide) h3,
    termLoaded_stable hext h4, termLoaded_stable hext h5,
    termLoaded_stable hext h6, termLoaded_stable hext h7⟩

theorem extends_modify {g : Graph} {f : Props → Props} (hf : TouchOK f)
    (i : Nat) : Extends g { g with nodes := modifyNode g.nodes i f } :=
  ⟨⟨modifyNode g.nodes i f, [], by simp, forall₂_modifyNode hf g.nodes i⟩,
   [], by simp⟩

theorem extends_append_node (g : Graph) (n : GNode) :
    Extends g { g with nodes := g.nodes ++ [n] } :=
  ⟨⟨g.nodes, [n], by simp, List.forall₂_same.2 fun x _ => nodeSim_refl x⟩,
   [], by simp⟩

/-! ### Unconditional ok-shape lemmas for the node upserts -/

theorem ensure_paper_node_ok (g : Graph) (m : Metrics) (p : String)
    (pd : Option PaperData) (t : Nat) :
    ∃ g1, ensure_paper_node g m (some p) pd t =
        Except.ok (g1, bump m "node_Paper", Val.vstr p) ∧
      Extends g g1 ∧ (findNode g1 "Paper" "pmcid" (Val.vstr p)).isSome ∧
      g1.edges = g.edges := by
  unfold ensure_paper_node
  simp only [oVal]
  rw [if_neg (by simp)]
  refine ⟨_, rfl, mergeNode_extends (touchOK_touchSeen t), ?_, mergeNode_edges⟩
  rw [mergeNode_findNode (by simp) (by decide) (by decide) (touchOK_touchSeen t)]
  rfl

theorem ensure_paper_node_idem {g : Graph} (m : Metrics) {p : String}
    (pd : Option PaperData) (t : Nat)
    (h : (findNode g "Paper" "pmcid" (Val.vstr p)).isSome) :
    ∃ g1, ensure_paper_node g m (some p) pd t =
        Except.ok (g1, bump m "node_Paper", Val.vstr p) ∧
      Extends g g1 ∧ g1.nodes.length = g.nodes.length ∧ g1.edges = g.edges := by
  obtain ⟨i, hi⟩ := Option.isSome_iff_exists.1 h
  refine ⟨_, ensure_paper_node_found m pd t hi,
    extends_modify (touchOK_touchSeen t) i, ?_, rfl⟩
  simp [length_modifyNode]

theorem ensure_finding_node_ok (g : Graph) (m : Metrics) (f : Finding)
    (fresh : String) (t : Nat) :
    ∃ g1, ensure_finding_node g m f fresh t =
        (g1, bump m "node_Finding", f.uuid.getD fresh) ∧
      Extends g g1 ∧
      (findNode g1 "Finding" "uuid" (Val.vstr (f.uuid.getD fresh))).isSome ∧
      g1.edges = g.edges := by
  unfold ensure_finding_node
  refine ⟨_, rfl, mergeNode_extends (touchOK_touchSeen t), ?_, mergeNode_edges⟩
  rw [mergeNode_findNode (by simp) (by decide) (by decide) (touchOK_touchSeen t)]
  rfl

theorem ensure_finding_node_idem {g : Graph} (m : Metrics) {f : Finding}
    (fresh : String) (t : Nat) {u : String} (hu : f.uuid = some u)
    (h : (findNode g "Finding" "uuid" (Val.vstr u)).isSome) :
    ∃ g1, ensure_finding_node g m f fresh t = (g1, bump m "node_Finding", u) ∧
      Extends g g1 ∧ g1.nodes.length = g.nodes.length ∧ g1.edges = g.edges := by
  obtain ⟨i, hi⟩ := Option.isSome_iff_exists.1 h
  refine ⟨_, ensure_finding_node_found m fresh t hu hi,
    extends_modify (touchOK_touchSeen t) i, ?_, rfl⟩
  simp [length_modifyNode]

theorem ensure_ontology_node_ok (g : Graph) (m : Metrics) (lbl : String)
    {od : OntologyTerm} (ex : Props) (t : Nat) {x : String}
    (hid : od.id = some x) :
    ∃ g1, ensure_ontology_node g m lbl od ex t =
        Except.ok (g1, bump m ("node_" ++ lbl), Val.vstr x) ∧
      Extends g g1 ∧ (findNode g1 lbl "obo_id" (Val.vstr x)).isSome ∧
      g1.edges = g.edges := by
  unfold ensure_ontology_node
  rw [hid]
  simp only [oVal]
  rw [if_neg (by simp)]
  refine ⟨_, rfl, mergeNode_extends (touchOK_touchCount t), ?_, mergeNode_edges⟩
  rw [mergeNode_findNode (by simp) (by decide) (by decide) (touchOK_touchCount t)]
  rfl

theorem ensure_ontology_node_idem {g : Graph} (m : Metrics) {lbl : String}
    {od : OntologyTerm} (ex : Props) (t : Nat) {x : String}
    (hid : od.id = some x)
    (h : (findNode g lbl "obo_id" (Val.vstr x)).isSome) :
    ∃ g1, ensure_ontology_node g m lbl od ex t =
        Except.ok (g1, bump m ("node_" ++ lbl), Val.vstr x) ∧
      Extends g g1 ∧ g1.nodes.length = g.nodes.length ∧ g1.edges = g.edges := by
  obtain ⟨i, hi⟩ := Option.isSome_iff_exists.1 h
  refine ⟨_, ensure_ontology_node_found m ex t hid hi,
    extends_modify (touchOK_touchCount t) i, ?_, rfl⟩
  simp [length_modifyNode]

theorem loadEntityStep_err {g : Graph} {m : Metrics} {fu : String}
    {lbl : String} {ot : Option OntologyTerm} {ex : Props} {rt : String}
    {rp : Props} {t : Nat} (hfail : termFails ot = true) :
    loadEntityStep g m fu lbl ot ex rt rp t =
      (Except.error "null merge key", m) := by
  cases ot with
  | none => simp [termFails] at hfail
  | some term =>
      have hid : term.id = none := by
        cases hterm : term.id
        · rfl
        · simp [termFails, hterm] at hfail
      simp [loadEntityStep, ensure_ontology_node_err m ex t hid]

theorem loadEntityStep_ok {g : Graph} (m : Metrics) {fu : String}
    (lbl : String) {ot : Option OntologyTerm} (ex : Props) (rt : String)
    (rp : Props) (t : Nat) (hok : termFails ot = false)
    (hfind : (findNode g "Finding" "uuid" (Val.vstr fu)).isSome) :
    ∃ g' m', loadEntityStep g m fu lbl ot ex rt rp t = (Except.ok g', m') ∧
      Extends g g' ∧ termLoaded g' fu lbl rt ot := by
  cases ot with
  | none => exact ⟨g, m, rfl, Extends.refl g, trivial⟩
  | some term =>
      obtain ⟨x, hx⟩ : ∃ x, term.id = some x := by
        cases hterm : term.id
        · simp [termFails, hterm] at hok
        · exact ⟨_, rfl⟩
      obtain ⟨g1, hOeq, hOext, hOex, _⟩ := ensure_ontology_node_ok g m lbl ex t hx
      have hfind1 := nodeExists_stable hOext (by decide) (by decide) hfind
      obtain ⟨i, hi⟩ := Option.isSome_iff_exists.1 hfind1
      obtain ⟨j, hj⟩ := Option.isSome_iff_exists.1 hOex
      have hCext := create_relationship_extends g1 (bump m ("node_" ++ lbl))
        "Finding" "uuid" (Val.vstr fu) rt lbl "obo_id" (Val.vstr x) rp t
      refine ⟨(create_relationship g1 (bump m ("node_" ++ lbl)) "Finding" "uuid"
          (Val.vstr fu) rt lbl "obo_id" (Val.vstr x) rp t).1,
        (create_relationship g1 (bump m ("node_" ++ lbl)) "Finding" "uuid"
          (Val.vstr fu) rt lbl "obo_id" (Val.vstr x) rp t).2,
        by simp [loadEntityStep, hOeq], hOext.trans hCext, ?_⟩
      exact ⟨x, hx, nodeExists_stable hCext (by decide) (by decide) hOex,
        create_relationship_keyed (bump m ("node_" ++ lbl)) rt rp t
          (by decide) (by decide) (by decide) (by decide) hi hj⟩

theorem loadEntityStep_idem {g : Graph} (m : Metrics) {fu : String}
    (lbl : String) {ot : Option OntologyTerm} (ex : Props) (rt : String)
    (rp : Props) (t : Nat) (hl : termLoaded g fu lbl rt ot) :
    ∃ g' m', loadEntityStep g m fu lbl ot ex rt rp t = (Except.ok g', m') ∧
      Extends g g' ∧ g'.nodes.length = g.nodes.length ∧ g'.edges = g.edges := by
  cases ot with
  | none => exact ⟨g, m, rfl, Extends.refl g, rfl, rfl⟩
  | some term =>
      obtain ⟨x, hx, hex, hkey⟩ := hl
      obtain ⟨g1, hOeq, hOext, hOlen, hOedg⟩ := ensure_ontology_node_idem m ex t hx hex
      have hkey1 := edgeKeyed_stable hOext (by decide) (by decide) (by decide)
        (by decide) hkey
      have hnoop := create_relationship_noop
        (bump m ("node_" ++ lbl)) rp t hkey1
      refine ⟨(create_relationship g1 (bump m ("node_" ++ lbl)) "Finding" "uuid"
          (Val.vstr fu) rt lbl "obo_id" (Val.vstr x) rp t).1,
        (create_relationship g1 (bump m ("node_" ++ lbl)) "Finding" "uuid"
          (Val.vstr fu) rt lbl "obo_id" (Val.vstr x) rp t).2,
        by simp [loadEntityStep, hOeq], ?_, ?_, ?_⟩
      · rw [hnoop]; exact hOext
      · rw [hnoop, hOlen]
      · rw [hnoop, hOedg]

theorem findingFails_parts {f : Finding} (hok : findingFails f = false) :
    f.pmcid.isNone = false ∧ termFails f.phenotype = false ∧
    termFails f.tissue = false ∧ termFails f.cell_type = false ∧
    termFails f.organism = false := by
  unfold findingFails at hok
  simp only [Bool.or_eq_false_iff] at hok
  exact ⟨hok.1.1.1.1, hok.1.1.1.2, hok.1.1.2, hok.1.2, hok.2⟩

/-- A record none of whose merge keys is null loads successfully; the graph
only extends, and afterwards all the nodes and edges of the record are
present under their identity keys. -/
theorem load_finding_ok (g : Graph) (m : Metrics) (f : Finding)
    (fresh : String) (t : Nat) (hok : findingFails f = false) :
    ∃ g' m', load_finding g m f fresh t = (Except.ok g', m') ∧
      Extends g g' ∧ findingLoaded g' f (f.uuid.getD fresh) := by
  obtain ⟨hp0, h1, h2, h3, h4⟩ := findingFails_parts hok
  obtain ⟨p, hpm⟩ : ∃ p, f.pmcid = some p := by
    cases hp : f.pmcid
    · rw [hp] at hp0; simp at hp0
    · exact ⟨_, rfl⟩
  obtain ⟨g1, hPeq, hPext, hPex, _⟩ := ensure_paper_node_ok g m p none t
  obtain ⟨g2, hFeq, hFext, hFex, _⟩ :=
    ensure_finding_node_ok g1 (bump m "node_Paper") f fresh t
  have hPex2 := nodeExists_stable hFext (by decide) (by decide) hPex
  obtain ⟨i, hi⟩ := Option.isSome_iff_exists.1 hPex2
  obtain ⟨j, hj⟩ := Option.isSome_iff_exists.1 hFex
  have hCext := create_relationship_extends g2
    (bump (bump m "node_Paper") "node_Finding") "Paper" "pmcid" (Val.vstr p)
    "REPORTS" "Finding" "uuid" (Val.vstr (f.uuid.getD fresh)) (reportsProps f) t
  have hRkeyed := create_relationship_keyed
    (bump (bump m "node_Paper") "node_Finding") "REPORTS" (reportsProps f) t
    (by decide) (by decide) (by decide) (by decide) hi hj
  have hFex3 := nodeExists_stable hCext (by decide) (by decide) hFex
  obtain ⟨g4, m4, hS1, e34, hTL1⟩ := loadEntityStep_ok
    ((create_relationship g2
      (bump (bump m "node_Paper") "node_Finding") "Paper" "pmcid" (Val.vstr p)
      "REPORTS" "Finding" "uuid" (Val.vstr (f.uuid.getD fresh))
      (reportsProps f) t).2) "Phenotype" []
    "AFFECTS" (affectsProps f) t h1 hFex3
  have hFex4 := nodeExists_stable e34 (by decide) (by decide) hFex3
  obtain ⟨g5, m5, hS2, e45, hTL2⟩ := loadEntityStep_ok m4 "Tissue" []
    "OBSERVED_IN" [] t h2 hFex4
  have hFex5 := nodeExists_stable e45 (by decide) (by decide) hFex4
  obtain ⟨g6, m6, hS3, e56, hTL3⟩ := loadEntityStep_ok m5 "CellType" []
    "OBSERVED_IN" [] t h3 hFex5
  have hFex6 := nodeExists_stable e56 (by decide) (by decide) hFex5
  obtain ⟨g7, m7, hS4, e67, hTL4⟩ := loadEntityStep_ok m6 "Organism"
    [("strain", f.organism_strain), ("sex", f.organism_sex)] "IN_ORGANISM"
    [] t h4 hFex6
  have e47 : Extends g4 g7 := e45.trans (e56.trans e67)
  have e37 : Extends ((create_relationship g2
      (bump (bump m "node_Paper") "node_Finding") "Paper" "pmcid" (Val.vstr p)
      "REPORTS" "Finding" "uuid" (Val.vstr (f.uuid.getD fresh))
      (reportsProps f) t).1) g7 := e34.trans e47
  refine ⟨g7, m7, ?_, ?_, ?_⟩
  · simp only [load_finding, hpm, hPeq]
    simp only [hFeq, hS1, hS2, hS3, hS4]
  · exact hPext.trans (hFext.trans (hCext.trans e37))
  · refine ⟨p, hpm, ?_, ?_, ?_, ?_, ?_, ?_, ?_⟩
    · exact nodeExists_stable (hFext.trans (hCext.trans e37)) (by decide)
        (by decide) hPex
    · exact nodeExists_stable (hCext.trans e37) (by decide) (by decide) hFex
    · exact edgeKeyed_stable e37 (by decide) (by decide) (by decide)
        (by decide) hRkeyed
    · exact termLoaded_stable e47 hTL1
    · exact termLoaded_stable (e56.trans e67) hTL2
    · exact termLoaded_stable e67 hTL3
    · exact hTL4

/-- A record with a null merge key raises; the transaction is rolled back by
the caller, so only the error surface matters here. -/
theorem load_finding_err (g : Graph) (m : Metrics) (f : Finding)
    (fresh : String) (t : Nat) (hfail : findingFails f = true) :
    ∃ mm, load_finding g m f fresh t = (Except.error "null merge key", mm) := by
  rcases hpm : f.pmcid with _ | p
  · exact ⟨m, by simp [load_finding, hpm, ensure_paper_node_err]⟩
  · obtain ⟨g1, hPeq, hPext, hPex, _⟩ := ensure_paper_node_ok g m p none t
    obtain ⟨g2, hFeq, hFext, hFex, _⟩ :=
      ensure_finding_node_ok g1 (bump m "node_Paper") f fresh t
    have hCext := create_relationship_extends g2
      (bump (bump m "node_Paper") "node_Finding") "Paper" "pmcid" (Val.vstr p)
      "REPORTS" "Finding" "uuid" (Val.vstr (f.uuid.getD fresh))
      (reportsProps f) t
    have hFex3 := nodeExists_stable hCext (by decide) (by decide) hFex
    by_cases h1 : termFails f.phenotype
    · refine ⟨(create_relationship g2
        (bump (bump m "node_Paper") "node_Finding") "Paper" "pmcid" (Val.vstr p)
        "REPORTS" "Finding" "uuid" (Val.vstr (f.uuid.getD fresh))
        (reportsProps f) t).2, ?_⟩
      simp only [load_finding, hpm, hPeq]
      simp only [hFeq, loadEntityStep_err h1]
    · rw [Bool.not_eq_true] at h1
      obtain ⟨g4, m4, hS1, e34, _⟩ := loadEntityStep_ok
        ((create_relationship g2
          (bump (bump m "node_Paper") "node_Finding") "Paper" "pmcid" (Val.vstr p)
          "REPORTS" "Finding" "uuid" (Val.vstr (f.uuid.getD fresh))
          (reportsProps f) t).2) "Phenotype" []
        "AFFECTS" (affectsProps f) t h1 hFex3
      have hFex4 := nodeExists_stable e34 (by decide) (by decide) hFex3
      by_cases h2 : termFails f.tissue
      · refine ⟨m4, ?_⟩
        simp only [load_finding, hpm, hPeq]
        simp only [hFeq, hS1, loadEntityStep_err h2]
      · rw [Bool.not_eq_true] at h2
        obtain ⟨g5, m5, hS2, e45, _⟩ := loadEntityStep_ok m4 "Tissue" []
          "OBSERVED_IN" [] t h2 hFex4
        have hFex5 := nodeExists_stable e45 (by decide) (by decide) hFex4
        by_cases h3 : termFails f.cell_type
        · refine ⟨m5, ?_⟩
          simp only [load_finding, hpm, hPeq]
          simp only [hFeq, hS1, hS2, loadEntityStep_err h3]
        · rw [Bool.not_eq_true] at h3
          obtain ⟨g6, m6, hS3, e56, _⟩ := loadEntityStep_ok m5 "CellType" []
            "OBSERVED_IN" [] t h3 hFex5
          have hFex6 := nodeExists_stable e56 (by decide) (by decide) hFex5
          by_cases h4 : termFails f.organism
          · refine ⟨m6, ?_⟩
            simp only [load_finding, hpm, hPeq]
            simp only [hFeq, hS1, hS2, hS3, loadEntityStep_err h4]
          · exfalso
            rw [Bool.not_eq_true] at h4
            rw [findingFails, hpm] at hfail
            simp [h1, h2, h3, h4] at hfail

/-- Re-loading a record whose keyed nodes and edges are already present only
touches metadata: node and edge counts are unchanged. -/
theorem load_finding_idem (g : Graph) (m : Metrics) (f : Finding)
    (fresh : String) (t : Nat) {u : String} (hok : findingFails f = false)
    (hu : f.uuid = some u) (hl : findingLoaded g f u) :
    ∃ g' m', load_finding g m f fresh t = (Except.ok g', m') ∧ Extends g g' ∧
      g'.nodes.length = g.nodes.length ∧ g'.edges = g.edges := by
  obtain ⟨_, h1, h2, h3, h4⟩ := findingFails_parts hok
  obtain ⟨p, hpm, hPexg, hFexg, hRkey, hT1, hT2, hT3, hT4⟩ := hl
  obtain ⟨g1, hPeq, hPext, hPlen, hPedg⟩ := ensure_paper_node_idem m none t hPexg
  have hFex1 := nodeExists_stable hPext (by decide) (by decide) hFexg
  obtain ⟨g2, hFeq, hFext, hFlen, hFedg⟩ :=
    ensure_finding_node_idem (bump m "node_Paper") fresh t hu hFex1
  have e02 : Extends g g2 := hPext.trans hFext
  have hRkey2 := edgeKeyed_stable e02 (by decide) (by decide) (by decide)
    (by decide) hRkey
  have hnoop := create_relationship_noop
    (bump (bump m "node_Paper") "node_Finding") (reportsProps f) t hRkey2
  obtain ⟨g4, m4, hS1, e24, hlen4, hedg4⟩ := loadEntityStep_idem
    ((create_relationship g2 (bump (bump m "node_Paper") "node_Finding")
      "Paper" "pmcid" (Val.vstr p) "REPORTS" "Finding" "uuid" (Val.vstr u)
      (reportsProps f) t).2) "Phenotype" [] "AFFECTS" (affectsProps f) t
    (termLoaded_stable e02 hT1)
  obtain ⟨g5, m5, hS2, e45, hlen5, hedg5⟩ := loadEntityStep_idem m4 "Tissue"
    [] "OBSERVED_IN" [] t (termLoaded_stable (e02.trans e24) hT2)
  obtain ⟨g6, m6, hS3, e56, hlen6, hedg6⟩ := loadEntityStep_idem m5 "CellType"
    [] "OBSERVED_IN" [] t
    (termLoaded_stable (e02.trans (e24.trans e45)) hT3)
  obtain ⟨g7, m7, hS4, e67, hlen7, hedg7⟩ := loadEntityStep_idem m6 "Organism"
    [("strain", f.organism_strain), ("sex", f.organism_sex)] "IN_ORGANISM" [] t
    (termLoaded_stable (e02.trans (e24.trans (e45.trans e56))) hT4)
  refine ⟨g7, m7, ?_, ?_, ?_, ?_⟩
  · simp only [load_finding, hpm, hPeq]
    simp only [hFeq]
    rw [hnoop]
    simp only [hS1, hS2, hS3, hS4]
  · exact e02.trans (e24.trans (e45.trans (e56.trans e67)))
  · rw [hlen7, hlen6, hlen5, hlen4, hFlen, hPlen]
  · rw [hedg7, hedg6, hedg5, hedg4, hFedg, hPedg]

/-- Every non-failing record of fs with a carried uuid is fully present. -/
def AllLoaded (g : Graph) (fs : List Finding) : Prop :=
  ∀ f ∈ fs, ∀ u, f.uuid = some u → findingFails f = false → findingLoaded g f u

theorem AllLoaded_stable {g g' : Graph} (hext : Extends g g') {fs : List Finding}
    (h : AllLoaded g fs) : AllLoaded g' fs :=
  fun f hf u hu hok => findingLoaded_stable hext (h f hf u hu hok)

theorem AllLoaded_nil (g : Graph) : AllLoaded g [] := fun f hf => absurd hf (by simp)

theorem recordStep_extends (fr : Nat → String) (t : Nat) (s : RunSt)
    (f : Finding) : Extends s.g (recordStep fr t s f).g := by
  unfold recordStep
  by_cases hfail : findingFails f
  · obtain ⟨mm, heq⟩ := load_finding_err s.g s.m f (fr s.c) t hfail
    rw [heq]
    exact Extends.refl s.g
  · rw [Bool.not_eq_true] at hfail
    obtain ⟨g', m', heq, hext, _⟩ := load_finding_ok s.g s.m f (fr s.c) t hfail
    rw [heq]
    exact hext

theorem recordStep_loads (fr : Nat → String) (t : Nat) (s : RunSt) (f : Finding)
    {u : String} (hu : f.uuid = some u) (hok : findingFails f = false) :
    findingLoaded (recordStep fr t s f).g f u := by
  obtain ⟨g', m', heq, _, hl⟩ := load_finding_ok s.g s.m f (fr s.c) t hok
  unfold recordStep
  rw [heq]
  have hgd : f.uuid.getD (fr s.c) = u := by rw [hu]; rfl
  rwa [hgd] at hl

theorem recordStep_preserve (fr : Nat → String) (t : Nat) (s : RunSt)
    (f : Finding) (hus : f.uuid.isSome)
    (hall : ∀ u, f.uuid = some u → findingFails f = false →
      findingLoaded s.g f u) :
    (recordStep fr t s f).g.nodes.length = s.g.nodes.length ∧
    (recordStep fr t s f).g.edges = s.g.edges ∧
    Extends s.g (recordStep fr t s f).g := by
  unfold recordStep
  by_cases hfail : findingFails f
  · obtain ⟨mm, heq⟩ := load_finding_err s.g s.m f (fr s.c) t hfail
    rw [heq]
    exact ⟨rfl, rfl, Extends.refl s.g⟩
  · rw [Bool.not_eq_true] at hfail
    obtain ⟨u, hu⟩ := Option.isSome_iff_exists.1 hus
    obtain ⟨g', m', heq, hext, hlen, hedg⟩ :=
      load_finding_idem s.g s.m f (fr s.c) t hfail hu (hall u hu hfail)
    rw [heq]
    exact ⟨hlen, hedg, hext⟩

theorem foldl_recordStep_extends (fr : Nat → String) (t : Nat) :
    ∀ (fs : List Finding) (s : RunSt),
      Extends s.g (fs.foldl (recordStep fr t) s).g := by
  intro fs
  induction fs with
  | nil => intro s; exact Extends.refl s.g
  | cons f fs ih =>
      intro s
      exact (recordStep_extends fr t s f).trans (ih (recordStep fr t s f))

theorem foldl_recordStep_loads (fr : Nat → String) (t : Nat) :
    ∀ (fs : List Finding) (s : RunSt),
      AllLoaded (fs.foldl (recordStep fr t) s).g fs := by
  intro fs
  induction fs with
  | nil => intro s; exact AllLoaded_nil _
  | cons f fs ih =>
      intro s f' hf' u hu hok
      rcases List.mem_cons.1 hf' with rfl | htl
      · exact findingLoaded_stable (foldl_recordStep_extends fr t fs _)
          (recordStep_loads fr t s f' hu hok)
      · exact ih (recordStep fr t s f) f' htl u hu hok

theorem foldl_recordStep_preserve (fr : Nat → String) (t : Nat) :
    ∀ (fs : List Finding) (s : RunSt), (∀ f ∈ fs, f.uuid.isSome) →
      AllLoaded s.g fs →
      (fs.foldl (recordStep fr t) s).g.nodes.length = s.g.nodes.length ∧
      (fs.foldl (recordStep fr t) s).g.edges = s.g.edges := by
  intro fs
  induction fs with
  | nil => intro s _ _; exact ⟨rfl, rfl⟩
  | cons f fs ih =>
      intro s hus hall
      obtain ⟨hlen1, hedg1, hext1⟩ := recordStep_preserve fr t s f
        (hus f (List.mem_cons_self f fs))
        (fun u hu hok => hall f (List.mem_cons_self f fs) u hu hok)
      have hall' : AllLoaded (recordStep fr t s f).g fs :=
        AllLoaded_stable hext1 (fun f' hf' => hall f' (List.mem_cons_of_mem f hf'))
      obtain ⟨hlen2, hedg2⟩ := ih (recordStep fr t s f)
        (fun f' hf' => hus f' (List.mem_cons_of_mem f hf')) hall'
      exact ⟨hlen2.trans hlen1, hedg2.trans hedg1⟩

theorem load_findings_batch_live (fr : Nat → String) (t : Nat) (s : RunSt)
    (fs : List Finding) :
    load_findings_batch false fr t s fs = fs.foldl (recordStep fr t) s := rfl

theorem loadJsonlAux_extends (fr : Nat → String) (bs t : Nat) :
    ∀ (lines : List (Line Finding)) (st : RunSt) (pending : List Finding)
      (total : Nat),
      Extends st.g (loadJsonlAux false fr bs t lines st pending total).1.g := by
  intro lines
  induction lines with
  | nil =>
      intro st pending total
      unfold loadJsonlAux
      by_cases h : pending.isEmpty
      · rw [if_pos h]; exact Extends.refl st.g
      · rw [if_neg h]
        rw [load_findings_batch_live]
        exact foldl_recordStep_extends fr t pending st
  | cons hd rest ih =>
      intro st pending total
      cases hd with
      | blank => exact ih st pending total
      | malformed => exact ih ⟨st.g, bump st.m "parse_errors", st.c⟩ pending total
      | record f =>
          simp only [loadJsonlAux]
          by_cases h : bs ≤ (pending ++ [f]).length
          · rw [if_pos h, load_findings_batch_live]
            exact (foldl_recordStep_extends fr t (pending ++ [f]) st).trans
              (ih _ [] _)
          · rw [if_neg h]
            exact ih st (pending ++ [f]) total

theorem loadJsonlAux_loads (fr : Nat → String) (bs t : Nat) :
    ∀ (lines : List (Line Finding)) (st : RunSt) (pending : List Finding)
      (total : Nat),
      AllLoaded (loadJsonlAux false fr bs t lines st pending total).1.g
        (pending ++ extractRecords lines) := by
  intro lines
  induction lines with
  | nil =>
      intro st pending total
      unfold loadJsonlAux
      by_cases h : pending.isEmpty
      · rw [if_pos h]
        have : pending = [] := List.isEmpty_iff.1 h
        subst this
        exact AllLoaded_nil _
      · rw [if_neg h]
        rw [load_findings_batch_live]
        intro f hf u hu hok
        simp only [extractRecords, List.append_nil] at hf
        exact foldl_recordStep_loads fr t pending st f hf u hu hok
  | cons hd rest ih =>
      intro st pending total
      cases hd with
      | blank =>
          intro f hf u hu hok
          exact ih st pending total f (by simpa [extractRecords] using hf) u hu hok
      | malformed =>
          intro f hf u hu hok
          exact ih ⟨st.g, bump st.m "parse_errors", st.c⟩ pending total f
            (by simpa [extractRecords] using hf) u hu hok
      | record f0 =>
          simp only [loadJsonlAux]
          by_cases h : bs ≤ (pending ++ [f0]).length
          · rw [if_pos h, load_findings_batch_live]
            intro f hf u hu hok
            have hsplit : f ∈ (pending ++ [f0]) ++ extractRecords rest := by
              simpa [extractRecords, List.append_assoc] using hf
            rcases List.mem_append.1 hsplit with hin | hin
            · have hload := foldl_recordStep_loads fr t (pending ++ [f0]) st
                f hin u hu hok
              exact findingLoaded_stable (loadJsonlAux_extends fr bs t rest _ [] _)
                hload
            · exact ih _ [] _ f (by simpa using hin) u hu hok
          · rw [if_neg h]
            intro f hf u hu hok
            refine ih st (pending ++ [f0]) total f ?_ u hu hok
            simpa [extractRecords, List.append_assoc] using hf

theorem loadJsonlAux_preserve (fr : Nat → String) (bs t : Nat) :
    ∀ (lines : List (Line Finding)) (st : RunSt) (pending : List Finding)
      (total : Nat),
      (∀ f ∈ pending ++ extractRecords lines, f.uuid.isSome) →
      AllLoaded st.g (pending ++ extractRecords lines) →
      (loadJsonlAux false fr bs t lines st pending total).1.g.nodes.length =
        st.g.nodes.length ∧
      (loadJsonlAux false fr bs t lines st pending total).1.g.edges =
        st.g.edges := by
  intro lines
  induction lines with
  | nil =>
      intro st pending total hus hall
      unfold loadJsonlAux
      by_cases h : pending.isEmpty
      · rw [if_pos h]; exact ⟨rfl, rfl⟩
      · rw [if_neg h, load_findings_batch_live]
        exact foldl_recordStep_preserve fr t pending st
          (fun f hf => hus f (by simpa [extractRecords] using hf))
          (fun f hf => hall f (by simpa [extractRecords] using hf))
  | cons hd rest ih =>
      intro st pending total hus hall
      cases hd with
      | blank =>
          exact ih st pending total
            (fun f hf => hus f (by simpa [extractRecords] using hf))
            (fun f hf => hall f (by simpa [extractRecords] using hf))
      | malformed =>
          exact ih ⟨st.g, bump st.m "parse_errors", st.c⟩ pending total
            (fun f hf => hus f (by simpa [extractRecords] using hf))
            (fun f hf => hall f (by simpa [extractRecords] using hf))
      | record f0 =>
          simp only [loadJsonlAux]
          have hus' : ∀ f ∈ (pending ++ [f0]) ++ extractRecords rest,
              f.uuid.isSome := by
            intro f hf
            exact hus f (by simpa [extractRecords, List.append_assoc] using hf)
          have hall' : AllLoaded st.g ((pending ++ [f0]) ++ extractRecords rest) := by
            intro f hf
            exact hall f (by simpa [extractRecords, List.append_assoc] using hf)
          by_cases h : bs ≤ (pending ++ [f0]).length
          · rw [if_pos h, load_findings_batch_live]
            obtain ⟨hlen1, hedg1⟩ := foldl_recordStep_preserve fr t
              (pending ++ [f0]) st
              (fun f hf => hus' f (List.mem_append_left _ hf))
              (fun f hf => hall' f (List.mem_append_left _ hf))
            have hext1 := foldl_recordStep_extends fr t (pending ++ [f0]) st
            obtain ⟨hlen2, hedg2⟩ := ih ((pending ++ [f0]).foldl (recordStep fr t) st)
              [] (total + (pending ++ [f0]).length)
              (fun f hf => hus' f (by simpa using
                (List.mem_append_right (pending ++ [f0]) (by simpa using hf))))
              (by
                intro f hf
                exact AllLoaded_stable hext1
                  (fun f' hf' => hall' f' (List.mem_append_right _
                    (by simpa [extractRecords] using hf'))) f (by simpa using hf))
            exact ⟨hlen2.trans hlen1, hedg2.trans hedg1⟩
          · rw [if_neg h]
            exact ih st (pending ++ [f0]) total hus' hall'

/-- C1 (amended): ingesting the same input file twice yields identical node
and edge counts - in fact the very same edge list - provided every record
carries its unique identifier: each Finding merges back onto the node keyed
by its carried uuid, papers and ontology entities merge by pmcid and obo_id,
and records that raise are rolled back identically both times.  The second
run may use any batch size, timestamp, and generated-identifier supply.  For
a record without a carried uuid the code generates a fresh identifier at
each ingestion, so idempotency fails (see the counterexample); the frozen
claim promised it for every input file. -/
theorem claim_C1_idempotent_reingestion (lines : List (Line Finding))
    (f1 f2 : Nat → String) (bs1 bs2 t1 t2 : Nat) (st0 : RunSt)
    (hu : ∀ f ∈ extractRecords lines, f.uuid.isSome) :
    (load_from_jsonl false f2 bs2 t2 lines
        (load_from_jsonl false f1 bs1 t1 lines st0)).g.nodes.length =
      (load_from_jsonl false f1 bs1 t1 lines st0).g.nodes.length ∧
    (load_from_jsonl false f2 bs2 t2 lines
        (load_from_jsonl false f1 bs1 t1 lines st0)).g.edges =
      (load_from_jsonl false f1 bs1 t1 lines st0).g.edges := by
  have hloads : AllLoaded (load_from_jsonl false f1 bs1 t1 lines st0).g
      (extractRecords lines) := by
    have h := loadJsonlAux_loads f1 bs1 t1 lines st0 [] 0
    simpa using h
  obtain ⟨hlen, hedg⟩ := loadJsonlAux_preserve f2 bs2 t2 lines
    (load_from_jsonl false f1 bs1 t1 lines st0) [] 0
    (by simpa using hu) (by simpa using hloads)
  exact ⟨hlen, hedg⟩

theorem claim_C1_idempotent_reingestion_witness :
    (load_from_jsonl false (fun _ => "a") 100 1 c6Lines
        (load_from_jsonl false (fun _ => "b") 3 0 c6Lines
          ⟨emptyGraph, [], 0⟩)).g.nodes.length =
      (load_from_jsonl false (fun _ => "b") 3 0 c6Lines
        ⟨emptyGraph, [], 0⟩).g.nodes.length ∧
    (load_from_jsonl false (fun _ => "a") 100 1 c6Lines
        (load_from_jsonl false (fun _ => "b") 3 0 c6Lines
          ⟨emptyGraph, [], 0⟩)).g.edges =
      (load_from_jsonl false (fun _ => "b") 3 0 c6Lines
        ⟨emptyGraph, [], 0⟩).g.edges :=
  claim_C1_idempotent_reingestion c6Lines (fun _ => "b") (fun _ => "a")
    3 100 0 1 ⟨emptyGraph, [], 0⟩ (by decide)

/-- The one-record file whose finding carries no uuid, ingested twice with
the distinct generated identifiers uuid4 would supply. -/
def c1NoUuidLines : List (Line Finding) := [Line.record (mkRec none (some "PMC1"))]

def c1Run1 : RunSt :=
  load_from_jsonl false (fun _ => "gen-1") 100 0 c1NoUuidLines ⟨emptyGraph, [], 0⟩

def c1Run2 : RunSt :=
  load_from_jsonl false (fun _ => "gen-2") 100 0 c1NoUuidLines c1Run1

/-- Refutation of C1 as frozen: for a record with no carried uuid the loader
generates a fresh identifier at each ingestion, so re-ingesting the same
one-record file adds a second Finding node and a second REPORTS edge (2
nodes, 1 edge after the first run; 3 nodes, 2 edges after the second) - the
node and edge counts are not identical. -/
theorem claim_C1_counterexample :
    c1Run1.g.nodes.length = 2 ∧ c1Run1.g.edges.length = 1 ∧
    c1Run2.g.nodes.length = 3 ∧ c1Run2.g.edges.length = 2 := by
  decide

end KnowledgeExplorer
